import Mathlib

/-!
Verification of the user/API-key service (FastAPI + MongoDB + Redis).

The development shallowly embeds the code of src/app/routes.py:

* JSON documents are modelled by the inductive type JVal (strings, integers,
  arrays, objects); the service only ever produces these shapes.
* The serialization used for cache entries is json.dumps(doc, sort_keys=True):
  keys sorted lexicographically by code point, separators ", " and ": ",
  ensure_ascii escaping.  It is embedded as serL and serStr below.
* json.loads (restricted to the grammar the service emits) is embedded as
  parseJ and jdecode.
* The Mongo collections (users, keys) and the two Redis lists (users_list,
  api_keys_list) form the state type St; the four route handlers become
  state-passing functions.  A raised exception is modelled by returning the
  state at the raise point together with an error value.
-/

/-- JSON values as produced by the service (no floats, booleans or nulls ever
occur in its documents). -/
inductive JVal where
  | str : String → JVal
  | int : Int → JVal
  | arr : List JVal → JVal
  | obj : List (String × JVal) → JVal

/-- Code-point lexicographic comparison of character lists, matching the
comparison Python applies to str keys when json.dumps sorts them. -/
def strLeB : List Char → List Char → Bool
  | [], _ => true
  | _ :: _, [] => false
  | a :: as, b :: bs =>
    if a.toNat < b.toNat then true
    else if a.toNat = b.toNat then strLeB as bs
    else false

theorem strLeB_total (x y : List Char) : strLeB x y = true ∨ strLeB y x = true := by
  induction x generalizing y with
  | nil => left; rfl
  | cons a as ih =>
    cases y with
    | nil => right; rfl
    | cons b bs =>
      simp only [strLeB]
      rcases Nat.lt_trichotomy a.toNat b.toNat with h | h | h
      · left; simp [h]
      · rcases ih bs with h2 | h2
        · left
          simp [h, h2, if_neg (by omega : ¬ a.toNat < b.toNat)]
        · right
          simp [h.symm, h2, if_neg (by omega : ¬ b.toNat < a.toNat)]
      · right; simp [h]

theorem strLeB_trans {x y z : List Char} (h1 : strLeB x y = true) (h2 : strLeB y z = true) :
    strLeB x z = true := by
  induction x generalizing y z with
  | nil => rfl
  | cons a as ih =>
    cases y with
    | nil => simp [strLeB] at h1
    | cons b bs =>
      cases z with
      | nil => simp [strLeB] at h2
      | cons c cs =>
        simp only [strLeB] at h1 h2 ⊢
        rcases Nat.lt_trichotomy a.toNat b.toNat with hab | hab | hab <;>
          rcases Nat.lt_trichotomy b.toNat c.toNat with hbc | hbc | hbc
        all_goals first
          | (simp [if_pos (by omega : a.toNat < c.toNat)])
          | (exfalso; revert h1; simp [if_neg (by omega : ¬ a.toNat < b.toNat),
              if_neg (by omega : ¬ a.toNat = b.toNat)])
          | (exfalso; revert h2; simp [if_neg (by omega : ¬ b.toNat < c.toNat),
              if_neg (by omega : ¬ b.toNat = c.toNat)])
          | skip
        · rw [if_neg (by omega), if_pos (by omega : a.toNat = c.toNat)]
          rw [if_neg (by omega), if_pos hab] at h1
          rw [if_neg (by omega), if_pos hbc] at h2
          exact ih h1 h2

theorem char_eq_of_toNat_eq {a b : Char} (h : a.toNat = b.toNat) : a = b :=
  Char.ext (UInt32.toNat.inj h)

theorem strLeB_antisymm {x y : List Char} (h1 : strLeB x y = true) (h2 : strLeB y x = true) :
    x = y := by
  induction x generalizing y with
  | nil =>
    cases y with
    | nil => rfl
    | cons b bs => simp [strLeB] at h2
  | cons a as ih =>
    cases y with
    | nil => simp [strLeB] at h1
    | cons b bs =>
      simp only [strLeB] at h1 h2
      rcases Nat.lt_trichotomy a.toNat b.toNat with hab | hab | hab
      · exfalso; revert h2
        simp [if_neg (by omega : ¬ b.toNat < a.toNat), if_neg (by omega : ¬ b.toNat = a.toNat)]
      · rw [if_neg (by omega), if_pos hab] at h1
        rw [if_neg (by omega), if_pos (by omega : b.toNat = a.toNat)] at h2
        rw [char_eq_of_toNat_eq hab, ih h1 h2]
      · exfalso; revert h1
        simp [if_neg (by omega : ¬ a.toNat < b.toNat), if_neg (by omega : ¬ a.toNat = b.toNat)]

/-- Ordering of key/value pairs by key only, as used by json.dumps when
sort_keys=True sorts dict items (keys of a dict are pairwise distinct, so the
value component never takes part in the comparison). -/
def keyLe {α : Type} (p q : String × α) : Prop := strLeB p.1.data q.1.data = true

instance {α : Type} : DecidableRel (@keyLe α) := fun _ _ =>
  inferInstanceAs (Decidable (_ = true))

instance {α : Type} : IsTotal (String × α) keyLe := ⟨fun a b => strLeB_total a.1.data b.1.data⟩

instance {α : Type} : IsTrans (String × α) keyLe := ⟨fun _ _ _ h1 h2 => strLeB_trans h1 h2⟩

/-- Stable sort of dict items by key (json.dumps sort_keys=True). -/
def sortPairs {α : Type} (l : List (String × α)) : List (String × α) :=
  List.insertionSort keyLe l

/-- The decimal digit characters. -/
def digitChar : Nat → Char
  | 0 => '0' | 1 => '1' | 2 => '2' | 3 => '3' | 4 => '4'
  | 5 => '5' | 6 => '6' | 7 => '7' | 8 => '8' | 9 => '9'
  | _ => '0'

/-- Decimal digits of a natural number, most significant first
(Python's str(int) for nonnegative values). -/
def natDigs (n : Nat) : List Char :=
  if n < 10 then [digitChar n]
  else natDigs (n / 10) ++ [digitChar (n % 10)]
termination_by n
decreasing_by exact Nat.div_lt_self (by omega) (by omega)

/-- Fueled form of the digit computation (any fuel above the value is
enough); it makes the serialization of an int compute by unfolding. -/
def natDigsAux : Nat → Nat → List Char → List Char
  | 0, _, acc => acc
  | fuel + 1, n, acc =>
    if n < 10 then digitChar n :: acc
    else natDigsAux fuel (n / 10) (digitChar (n % 10) :: acc)

theorem natDigsAux_append : ∀ (fuel n : Nat) (acc : List Char),
    natDigsAux fuel n acc = natDigsAux fuel n [] ++ acc := by
  intro fuel
  induction fuel with
  | zero => intro n acc; rfl
  | succ fuel ih =>
    intro n acc
    by_cases h : n < 10
    · rw [natDigsAux, if_pos h, natDigsAux, if_pos h]
      rfl
    · rw [natDigsAux, if_neg h, natDigsAux, if_neg h, ih (n / 10), ih (n / 10)
        [digitChar (n % 10)], List.append_assoc]
      rfl

theorem natDigsAux_eq_natDigs : ∀ (n fuel : Nat), n < fuel →
    natDigsAux fuel n [] = natDigs n := by
  intro n
  induction n using Nat.strong_induction_on with
  | _ n ih =>
    intro fuel hf
    match fuel, hf with
    | fuel + 1, hf =>
      by_cases h : n < 10
      · rw [natDigsAux, if_pos h, natDigs, if_pos h]
      · rw [natDigsAux, if_neg h, natDigs, if_neg h, natDigsAux_append,
          ih (n / 10) (Nat.div_lt_self (by omega) (by omega)) fuel
            (by
              have := Nat.div_lt_self (show 0 < n by omega) (show 1 < 10 by omega)
              omega)]

/-- natDigs through the fueled computation. -/
theorem natDigsC_eq (n : Nat) : natDigsAux (n + 1) n [] = natDigs n :=
  natDigsAux_eq_natDigs n (n + 1) (by omega)

/-- Python's textual form of an int (json.dumps renders ints with repr). -/
def intChars (i : Int) : List Char :=
  if i < 0 then '-' :: natDigsAux (i.natAbs + 1) i.natAbs []
  else natDigsAux (i.toNat + 1) i.toNat []

/-- Lowercase hexadecimal digit characters, as used by json.dumps for
unicode escapes. -/
def hexDigChar : Nat → Char
  | 0 => '0' | 1 => '1' | 2 => '2' | 3 => '3' | 4 => '4'
  | 5 => '5' | 6 => '6' | 7 => '7' | 8 => '8' | 9 => '9'
  | 10 => 'a' | 11 => 'b' | 12 => 'c' | 13 => 'd' | 14 => 'e' | 15 => 'f'
  | _ => '0'

/-- Four lowercase hex digits of a value below 0x10000 (the XXXX of a JSON
unicode escape). -/
def hex4 (n : Nat) : List Char :=
  [hexDigChar (n / 4096 % 16), hexDigChar (n / 256 % 16),
   hexDigChar (n / 16 % 16), hexDigChar (n % 16)]

/-- Escape of one character inside a JSON string literal, exactly as
json.dumps with ensure_ascii=True (the default) performs it: the two-character
escapes for quote, backslash and the usual control characters, unicode escapes
for the remaining control characters and for everything outside 0x20..0x7e,
with surrogate pairs above 0xffff. -/
def escChar (c : Char) : List Char :=
  if c = '"' then ['\\', '"']
  else if c = '\\' then ['\\', '\\']
  else if c = '\n' then ['\\', 'n']
  else if c = '\r' then ['\\', 'r']
  else if c = '\t' then ['\\', 't']
  else if c.toNat = 8 then ['\\', 'b']
  else if c.toNat = 12 then ['\\', 'f']
  else if c.toNat < 0x20 then '\\' :: 'u' :: hex4 c.toNat
  else if c.toNat ≤ 0x7e then [c]
  else if c.toNat < 0x10000 then '\\' :: 'u' :: hex4 c.toNat
  else ('\\' :: 'u' :: hex4 (0xd800 + (c.toNat - 0x10000) / 1024)) ++
       ('\\' :: 'u' :: hex4 (0xdc00 + (c.toNat - 0x10000) % 1024))

/-- Escape of a whole string body. -/
def escapeList : List Char → List Char
  | [] => []
  | c :: cs => escChar c ++ escapeList cs

/-- Rendering of one already-serialized dict item: "key": value. -/
def fieldChars (p : String × String) : List Char :=
  '"' :: escapeList p.1.data ++ '"' :: ':' :: ' ' :: p.2.data

/-- Rendering of an already-serialized item list with the ", " separator of
json.dumps. -/
def renderFields : List (String × String) → List Char
  | [] => []
  | [p] => fieldChars p
  | p :: q :: fs => fieldChars p ++ ',' :: ' ' :: renderFields (q :: fs)

mutual

/-- json.dumps(v, sort_keys=True) as a character list: default separators
(", " and ": "), dict items sorted by key. -/
def serL : JVal → List Char
  | .str s => '"' :: escapeList s.data ++ ['"']
  | .int i => intChars i
  | .arr [] => ['[', ']']
  | .arr (x :: xs) => '[' :: (serL x ++ serTail xs) ++ [']']
  | .obj l => '\x7b' :: renderFields (sortPairs (serFields l)) ++ ['\x7d']

/-- Serialization of the remaining array elements, each preceded by ", ". -/
def serTail : List JVal → List Char
  | [] => []
  | x :: xs => ',' :: ' ' :: serL x ++ serTail xs

/-- Serialization of each value of a dict, pairing it with its key. -/
def serFields : List (String × JVal) → List (String × String)
  | [] => []
  | (k, v) :: l => (k, ⟨serL v⟩) :: serFields l

end

/-- json.dumps(v, sort_keys=True) as a String. -/
def serStr (v : JVal) : String := ⟨serL v⟩

mutual

/-- Canonical form of a JSON value: every object's items sorted by key, as
they come out of a dumps/loads round trip. -/
def canon : JVal → JVal
  | .str s => .str s
  | .int i => .int i
  | .arr xs => .arr (canonList xs)
  | .obj l => .obj (sortPairs (canonFields l))

def canonList : List JVal → List JVal
  | [] => []
  | x :: xs => canon x :: canonList xs

def canonFields : List (String × JVal) → List (String × JVal)
  | [] => []
  | (k, v) :: l => (k, canon v) :: canonFields l

end

/-- Is this character a decimal digit. -/
def isDigCh (c : Char) : Bool := 48 ≤ c.toNat && c.toNat ≤ 57

/-- Value of a decimal digit character. -/
def digVal (c : Char) : Nat := c.toNat - 48

/-- Value of a hex digit character (json.loads accepts both cases). -/
def hexVal (c : Char) : Option Nat :=
  if 48 ≤ c.toNat && c.toNat ≤ 57 then some (c.toNat - 48)
  else if 97 ≤ c.toNat && c.toNat ≤ 102 then some (c.toNat - 87)
  else if 65 ≤ c.toNat && c.toNat ≤ 70 then some (c.toNat - 55)
  else none

/-- Value of four hex digit characters. -/
def hexQuad (h1 h2 h3 h4 : Char) : Option Nat :=
  match hexVal h1, hexVal h2, hexVal h3, hexVal h4 with
  | some a, some b, some c, some d => some (a * 4096 + b * 256 + c * 16 + d)
  | _, _, _, _ => none

/-- Greedily consume decimal digits, accumulating their value. -/
def parseDigitsAux (acc : Nat) : List Char → Nat × List Char
  | [] => (acc, [])
  | c :: cs => if isDigCh c then parseDigitsAux (acc * 10 + digVal c) cs else (acc, c :: cs)

/-- Does the input start with a decimal digit (used to state that number
parsing stops exactly at the serialized boundary). -/
def headIsDig : List Char → Bool
  | [] => false
  | c :: _ => isDigCh c

/-- Parse a low surrogate escape after a high surrogate with value n, giving
the combined character (json.loads joins surrogate pairs). -/
def parseSurrPair (n : Nat) : List Char → Option (Char × List Char)
  | a :: b :: g1 :: g2 :: g3 :: g4 :: r4 =>
    if a = '\\' ∧ b = 'u' then
      match hexQuad g1 g2 g3 g4 with
      | none => none
      | some m =>
        if 0xdc00 ≤ m ∧ m < 0xe000 then
          some (Char.ofNat (0x10000 + (n - 0xd800) * 1024 + (m - 0xdc00)), r4)
        else none
    else none
  | _ => none

/-- Parse the XXXX of a unicode escape, combining surrogate pairs; a lone
surrogate is rejected (Lean characters are scalar values). -/
def parseUEsc : List Char → Option (Char × List Char)
  | h1 :: h2 :: h3 :: h4 :: r3 =>
    match hexQuad h1 h2 h3 h4 with
    | none => none
    | some n =>
      if n < 0xd800 ∨ 0xe000 ≤ n then some (Char.ofNat n, r3)
      else if n < 0xdc00 then parseSurrPair n r3
      else none
  | _ => none

/-- The character denoted by a two-character escape. -/
def escCode (e : Char) : Option Char :=
  if e = '"' then some '"'
  else if e = '\\' then some '\\'
  else if e = '/' then some '/'
  else if e = 'n' then some '\n'
  else if e = 'r' then some '\r'
  else if e = 't' then some '\t'
  else if e = 'b' then some '\x08'
  else if e = 'f' then some '\x0c'
  else none

/-- Parse the body of a JSON string literal after the opening quote, up to and
including the closing quote, undoing the escapes of escChar (including
surrogate pairs); raw control characters are rejected as json.loads does in
its default strict mode.  Returns the decoded characters and the rest of the
input.  The fuel argument only serves termination; any fuel larger than the
number of decoded characters is enough. -/
def parseStringBody : Nat → List Char → Option (List Char × List Char)
  | 0, _ => none
  | _ + 1, [] => none
  | fuel + 1, c :: r =>
    if c = '"' then some ([], r)
    else if c = '\\' then
      match r with
      | [] => none
      | e :: r2 =>
        if e = 'u' then
          match parseUEsc r2 with
          | none => none
          | some (ch, r3) => (parseStringBody fuel r3).map (fun p => (ch :: p.1, p.2))
        else
          match escCode e with
          | none => none
          | some ch => (parseStringBody fuel r2).map (fun p => (ch :: p.1, p.2))
    else if c.toNat < 0x20 then none
    else (parseStringBody fuel r).map (fun p => (c :: p.1, p.2))

/-- Continuation after one array element: expect the closing bracket or the
", " separator followed by more elements (pi stands for the recursive call). -/
def itemsSep (pi : List Char → Option (List JVal × List Char)) (v : JVal) :
    List Char → Option (List JVal × List Char)
  | [] => none
  | d :: r2 =>
    if d = ']' then some ([v], r2)
    else if d = ',' then
      match r2 with
      | [] => none
      | sp :: r3 => if sp = ' ' then (pi r3).map (fun p => (v :: p.1, p.2)) else none
    else none

/-- Continuation after one object value: expect the closing brace or the ", "
separator followed by more items. -/
def fieldsVal (pf : List Char → Option (List (String × JVal) × List Char))
    (k : List Char) (v : JVal) : List Char → Option (List (String × JVal) × List Char)
  | [] => none
  | d2 :: r4 =>
    if d2 = '\x7d' then some ([(⟨k⟩, v)], r4)
    else if d2 = ',' then
      match r4 with
      | [] => none
      | sp2 :: r5 =>
        if sp2 = ' ' then (pf r5).map (fun p => ((⟨k⟩, v) :: p.1, p.2))
        else none
    else none

/-- Continuation after one object key: expect ": " and then the value. -/
def fieldsKey (pj : List Char → Option (JVal × List Char))
    (pf : List Char → Option (List (String × JVal) × List Char))
    (k : List Char) : List Char → Option (List (String × JVal) × List Char)
  | [] => none
  | d :: r2 =>
    if d = ':' then
      match r2 with
      | [] => none
      | sp :: r3 =>
        if sp = ' ' then
          match pj r3 with
          | none => none
          | some (v, rest2) => fieldsVal pf k v rest2
        else none
    else none

mutual

/-- Recursive-descent parser for the JSON subset the service emits (strings,
integers, arrays and objects with the exact ", " and ": " separators of
json.dumps).  The fuel argument only serves termination; any fuel larger than
the input length is enough. -/
def parseJ : Nat → List Char → Option (JVal × List Char)
  | 0, _ => none
  | fuel + 1, input =>
    match input with
    | [] => none
    | c :: r =>
      if c = '"' then (parseStringBody fuel r).map (fun p => (.str ⟨p.1⟩, p.2))
      else if c = '-' then
        match r with
        | d :: _ =>
          if isDigCh d then
            match parseDigitsAux 0 r with
            | (n, rest) => some (.int (-(n : Int)), rest)
          else none
        | [] => none
      else if isDigCh c then
        match parseDigitsAux 0 (c :: r) with
        | (n, rest) => some (.int (n : Int), rest)
      else if c = '[' then
        match r with
        | [] => none
        | d :: r2 =>
          if d = ']' then some (.arr [], r2)
          else (parseItems fuel (d :: r2)).map (fun p => (.arr p.1, p.2))
      else if c = '\x7b' then
        match r with
        | [] => none
        | d :: r2 =>
          if d = '\x7d' then some (.obj [], r2)
          else (parseFields fuel (d :: r2)).map (fun p => (.obj p.1, p.2))
      else none

/-- Parse one or more array elements separated by ", ", up to and including
the closing bracket. -/
def parseItems : Nat → List Char → Option (List JVal × List Char)
  | 0, _ => none
  | fuel + 1, input =>
    match parseJ fuel input with
    | none => none
    | some (v, rest) => itemsSep (parseItems fuel) v rest

/-- Parse one or more object items separated by ", ", up to and including the
closing brace. -/
def parseFields : Nat → List Char → Option (List (String × JVal) × List Char)
  | 0, _ => none
  | fuel + 1, input =>
    match input with
    | [] => none
    | c :: r =>
      if c = '"' then
        match parseStringBody fuel r with
        | none => none
        | some (k, rest) => fieldsKey (parseJ fuel) (parseFields fuel) k rest
      else none

end

/-- json.loads on a whole cache entry: the entire input must be consumed. -/
def jdecode (s : String) : Option JVal :=
  match parseJ (s.data.length + 1) s.data with
  | some (v, []) => some v
  | _ => none

theorem char_toNat_ofNat (n : Nat) (h : n.isValidChar) : (Char.ofNat n).toNat = n := by
  simp only [Char.ofNat, dif_pos h, Char.ofNatAux, Char.toNat, UInt32.toNat]
  simp

theorem char_valid_facts (c : Char) : c.toNat < 0xd800 ∨ (0xdfff < c.toNat ∧ c.toNat < 0x110000) :=
  c.valid

theorem hexVal_hexDigChar (m : Nat) (h : m < 16) : hexVal (hexDigChar m) = some m := by
  interval_cases m <;> rfl

theorem hexQuad_hex4 (n : Nat) (h : n < 0x10000) :
    hexQuad (hexDigChar (n / 4096 % 16)) (hexDigChar (n / 256 % 16))
      (hexDigChar (n / 16 % 16)) (hexDigChar (n % 16)) = some n := by
  rw [hexQuad, hexVal_hexDigChar _ (by omega), hexVal_hexDigChar _ (by omega),
    hexVal_hexDigChar _ (by omega), hexVal_hexDigChar _ (by omega)]
  have : n / 4096 % 16 * 4096 + n / 256 % 16 * 256 + n / 16 % 16 * 16 + n % 16 = n := by
    omega
  simp [this]

theorem isDigCh_digitChar (d : Nat) (h : d < 10) : isDigCh (digitChar d) = true := by
  interval_cases d <;> rfl

theorem digVal_digitChar (d : Nat) (h : d < 10) : digVal (digitChar d) = d := by
  interval_cases d <;> rfl

theorem natDigs_ne_nil (n : Nat) : natDigs n ≠ [] := by
  rw [natDigs]
  by_cases h : n < 10 <;> simp [h]

theorem natDigs_head_dig (n : Nat) :
    ∃ c cs, natDigs n = c :: cs ∧ isDigCh c = true := by
  induction n using Nat.strong_induction_on with
  | _ n ih =>
    rw [natDigs]
    by_cases h : n < 10
    · exact ⟨digitChar n, [], by simp [h], isDigCh_digitChar n h⟩
    · obtain ⟨c, cs, hc, hd⟩ := ih (n / 10) (Nat.div_lt_self (by omega) (by omega))
      exact ⟨c, cs ++ [digitChar (n % 10)], by simp [h, hc], hd⟩

theorem parseDigitsAux_natDigs (n : Nat) : ∀ acc rest,
    parseDigitsAux acc (natDigs n ++ rest) =
      parseDigitsAux (acc * 10 ^ (natDigs n).length + n) rest := by
  induction n using Nat.strong_induction_on with
  | _ n ih =>
    intro acc rest
    by_cases h : n < 10
    · rw [natDigs, if_pos h]
      simp only [List.cons_append, List.nil_append, parseDigitsAux,
        isDigCh_digitChar n h, if_pos, List.length_cons, List.length_nil]
      rw [digVal_digitChar n h]
      norm_num
    · rw [natDigs, if_neg h]
      simp only [List.append_assoc, List.cons_append, List.nil_append]
      rw [ih (n / 10) (Nat.div_lt_self (by omega) (by omega))]
      simp only [parseDigitsAux, isDigCh_digitChar (n % 10) (by omega), if_pos,
        digVal_digitChar (n % 10) (by omega)]
      rw [List.length_append, List.length_cons, List.length_nil]
      have : (acc * 10 ^ (natDigs (n / 10)).length + n / 10) * 10 + n % 10 =
          acc * 10 ^ ((natDigs (n / 10)).length + 1) + n := by
        rw [pow_succ]
        have := Nat.div_add_mod n 10
        ring_nf
        omega
      rw [this]

theorem parseDigitsAux_stop (acc : Nat) (rest : List Char) (h : headIsDig rest = false) :
    parseDigitsAux acc rest = (acc, rest) := by
  cases rest with
  | nil => rfl
  | cons c cs =>
    simp only [headIsDig] at h
    simp [parseDigitsAux, h]

theorem parseDigits_natDigs (n : Nat) (rest : List Char) (h : headIsDig rest = false) :
    parseDigitsAux 0 (natDigs n ++ rest) = (n, rest) := by
  rw [parseDigitsAux_natDigs, parseDigitsAux_stop _ _ h]
  norm_num

theorem psb_cons (fuel : Nat) (c : Char) (r : List Char) :
    parseStringBody (fuel + 1) (c :: r) =
      (if c = '"' then some ([], r)
      else if c = '\\' then
        match r with
        | [] => none
        | e :: r2 =>
          if e = 'u' then
            match parseUEsc r2 with
            | none => none
            | some (ch, r3) => (parseStringBody fuel r3).map (fun p => (ch :: p.1, p.2))
          else
            match escCode e with
            | none => none
            | some ch => (parseStringBody fuel r2).map (fun p => (ch :: p.1, p.2))
      else if c.toNat < 0x20 then none
      else (parseStringBody fuel r).map (fun p => (c :: p.1, p.2))) := rfl

theorem psb_u (fuel : Nat) (rest : List Char) :
    parseStringBody (fuel + 1) ('\\' :: 'u' :: rest) =
      (match parseUEsc rest with
      | none => none
      | some (ch, r3) => (parseStringBody fuel r3).map (fun p => (ch :: p.1, p.2))) := rfl

theorem parseUEsc_basic (n : Nat) (hlt : n < 0x10000) (hval : n < 0xd800 ∨ 0xe000 ≤ n)
    (r : List Char) : parseUEsc (hex4 n ++ r) = some (Char.ofNat n, r) := by
  simp only [hex4, List.cons_append, List.nil_append, parseUEsc, hexQuad_hex4 n hlt,
    if_pos hval]

theorem parseUEsc_surr (n m : Nat) (hn1 : 0xd800 ≤ n) (hn2 : n < 0xdc00)
    (hm1 : 0xdc00 ≤ m) (hm2 : m < 0xe000) (r : List Char) :
    parseUEsc (hex4 n ++ ('\\' :: 'u' :: (hex4 m ++ r))) =
      some (Char.ofNat (0x10000 + (n - 0xd800) * 1024 + (m - 0xdc00)), r) := by
  simp only [hex4, List.cons_append, List.nil_append, parseUEsc, hexQuad_hex4 n (by omega),
    if_neg (by omega : ¬ (n < 0xd800 ∨ 0xe000 ≤ n)), if_pos hn2, parseSurrPair,
    hexQuad_hex4 m (by omega)]
  simp [hm1, hm2]

theorem psb_u_some (fuel : Nat) (rest : List Char) (ch : Char) (r3 : List Char)
    (h : parseUEsc rest = some (ch, r3)) :
    parseStringBody (fuel + 1) ('\\' :: 'u' :: rest) =
      (parseStringBody fuel r3).map (fun p => (ch :: p.1, p.2)) := by
  rw [psb_u fuel rest, h]

theorem psb_step (fuel : Nat) (c : Char) (tail : List Char) :
    parseStringBody (fuel + 1) (escChar c ++ tail) =
      (parseStringBody fuel tail).map (fun p => (c :: p.1, p.2)) := by
  by_cases h1 : c = '"'
  · subst h1; rfl
  by_cases h2 : c = '\\'
  · subst h2; rfl
  by_cases h3 : c = '\n'
  · subst h3; rfl
  by_cases h4 : c = '\r'
  · subst h4; rfl
  by_cases h5 : c = '\t'
  · subst h5; rfl
  by_cases h6 : c.toNat = 8
  · have hc : c = '\x08' := char_eq_of_toNat_eq (by rw [h6]; rfl)
    subst hc; rfl
  by_cases h7 : c.toNat = 12
  · have hc : c = '\x0c' := char_eq_of_toNat_eq (by rw [h7]; rfl)
    subst hc; rfl
  by_cases h8 : c.toNat < 0x20
  · simp only [escChar, if_neg h1, if_neg h2, if_neg h3, if_neg h4, if_neg h5, if_neg h6,
      if_neg h7, if_pos h8, List.cons_append]
    rw [psb_u_some fuel _ _ _ (parseUEsc_basic c.toNat (by omega) (by omega) tail),
      Char.ofNat_toNat]
  by_cases h9 : c.toNat ≤ 0x7e
  · simp only [escChar, if_neg h1, if_neg h2, if_neg h3, if_neg h4, if_neg h5, if_neg h6,
      if_neg h7, if_neg h8, if_pos h9, List.cons_append, List.nil_append, psb_cons,
      if_neg h1, if_neg h2, if_neg h8]
  by_cases h10 : c.toNat < 0x10000
  · have hval : c.toNat < 0xd800 ∨ 0xe000 ≤ c.toNat := by
      rcases char_valid_facts c with h | ⟨ha, hb⟩
      · left; exact h
      · right; omega
    simp only [escChar, if_neg h1, if_neg h2, if_neg h3, if_neg h4, if_neg h5, if_neg h6,
      if_neg h7, if_neg h8, if_neg h9, if_pos h10, List.cons_append]
    rw [psb_u_some fuel _ _ _ (parseUEsc_basic c.toNat h10 hval tail), Char.ofNat_toNat]
  · have hbig : c.toNat < 0x110000 := by
      rcases char_valid_facts c with h | ⟨ha, hb⟩
      · omega
      · exact hb
    simp only [escChar, if_neg h1, if_neg h2, if_neg h3, if_neg h4, if_neg h5, if_neg h6,
      if_neg h7, if_neg h8, if_neg h9, if_neg h10, List.cons_append, List.append_assoc]
    rw [psb_u_some fuel _ _ _ (parseUEsc_surr (0xd800 + (c.toNat - 0x10000) / 1024)
      (0xdc00 + (c.toNat - 0x10000) % 1024) (by omega) (by omega) (by omega) (by omega) tail)]
    have harith : 0x10000 + (0xd800 + (c.toNat - 0x10000) / 1024 - 0xd800) * 1024 +
        (0xdc00 + (c.toNat - 0x10000) % 1024 - 0xdc00) = c.toNat := by
      omega
    rw [harith, Char.ofNat_toNat]

theorem psb_escape (cs : List Char) : ∀ fuel rest, cs.length < fuel →
    parseStringBody fuel (escapeList cs ++ '"' :: rest) = some (cs, rest) := by
  induction cs with
  | nil =>
    intro fuel rest h
    match fuel, h with
    | fuel + 1, _ => rfl
  | cons c cs ih =>
    intro fuel rest h
    match fuel, h with
    | fuel + 1, h =>
      simp only [escapeList, List.append_assoc, psb_step,
        ih fuel rest (by simpa using Nat.lt_of_succ_lt_succ h)]
      rfl

theorem sizeOf_lt_of_mem_arr {x : JVal} {xs : List JVal} (h : x ∈ xs) :
    sizeOf x < sizeOf (JVal.arr xs) := by
  have := List.sizeOf_lt_of_mem h
  simp only [JVal.arr.sizeOf_spec]
  omega

theorem sizeOf_lt_of_mem_obj {p : String × JVal} {l : List (String × JVal)} (h : p ∈ l) :
    sizeOf p.2 < sizeOf (JVal.obj l) := by
  have h1 := List.sizeOf_lt_of_mem h
  have h2 : sizeOf p.2 < sizeOf p := by
    obtain ⟨a, b⟩ := p
    simp only [Prod.mk.sizeOf_spec]
    omega
  simp only [JVal.obj.sizeOf_spec]
  omega

/-- Structural induction over JVal with membership hypotheses for the nested
lists. -/
theorem JVal.indOn (P : JVal → Prop)
    (hstr : ∀ s, P (.str s)) (hint : ∀ i, P (.int i))
    (harr : ∀ xs, (∀ x ∈ xs, P x) → P (.arr xs))
    (hobj : ∀ l, (∀ p ∈ l, P p.2) → P (.obj l)) : ∀ v, P v
  | .str s => hstr s
  | .int i => hint i
  | .arr xs => harr xs (fun x hx => JVal.indOn P hstr hint harr hobj x)
  | .obj l => hobj l (fun p hp => JVal.indOn P hstr hint harr hobj p.2)
termination_by v => sizeOf v
decreasing_by
  · exact sizeOf_lt_of_mem_arr hx
  · exact sizeOf_lt_of_mem_obj hp

theorem canonList_eq_map (xs : List JVal) : canonList xs = xs.map canon := by
  induction xs with
  | nil => rfl
  | cons x xs ih => simp [canonList, ih]

theorem canonFields_eq_map (l : List (String × JVal)) :
    canonFields l = l.map (fun p => (p.1, canon p.2)) := by
  induction l with
  | nil => rfl
  | cons p l ih =>
    obtain ⟨k, v⟩ := p
    simp [canonFields, ih]

theorem serFields_eq_map (l : List (String × JVal)) :
    serFields l = l.map (fun p => (p.1, (⟨serL p.2⟩ : String))) := by
  induction l with
  | nil => rfl
  | cons p l ih =>
    obtain ⟨k, v⟩ := p
    simp [serFields, ih]

theorem orderedInsert_map_fst_pres {α β : Type} (f : String × α → String × β)
    (hf : ∀ p, (f p).1 = p.1) (a : String × α) (l : List (String × α)) :
    (List.orderedInsert keyLe a l).map f = List.orderedInsert keyLe (f a) (l.map f) := by
  induction l with
  | nil => rfl
  | cons b l ih =>
    by_cases h : keyLe a b
    · rw [List.orderedInsert, if_pos h]
      simp only [List.map_cons]
      rw [List.orderedInsert,
        if_pos (show keyLe (f a) (f b) by unfold keyLe at h ⊢; rw [hf a, hf b]; exact h)]
    · rw [List.orderedInsert, if_neg h]
      simp only [List.map_cons]
      rw [List.orderedInsert,
        if_neg (show ¬ keyLe (f a) (f b) by unfold keyLe at h ⊢; rw [hf a, hf b]; exact h), ih]

theorem sortPairs_map_fst_pres {α β : Type} (f : String × α → String × β)
    (hf : ∀ p, (f p).1 = p.1) (l : List (String × α)) :
    (sortPairs l).map f = sortPairs (l.map f) := by
  induction l with
  | nil => rfl
  | cons a l ih =>
    unfold sortPairs at ih ⊢
    rw [List.insertionSort, List.map_cons, List.insertionSort,
      orderedInsert_map_fst_pres f hf, ih]

theorem sortPairs_sorted {α : Type} (l : List (String × α)) :
    (sortPairs l).Sorted keyLe :=
  List.sorted_insertionSort keyLe l

theorem sortPairs_perm {α : Type} (l : List (String × α)) : (sortPairs l).Perm l :=
  List.perm_insertionSort keyLe l

theorem sortPairs_of_sorted {α : Type} {l : List (String × α)} (h : l.Sorted keyLe) :
    sortPairs l = l :=
  List.Sorted.insertionSort_eq h

theorem sortPairs_idem {α : Type} (l : List (String × α)) :
    sortPairs (sortPairs l) = sortPairs l :=
  sortPairs_of_sorted (sortPairs_sorted l)

theorem escChar_ne_nil (c : Char) : escChar c ≠ [] := by
  unfold escChar
  repeat' split
  all_goals simp

theorem escapeList_len_ge (cs : List Char) : cs.length ≤ (escapeList cs).length := by
  induction cs with
  | nil => simp [escapeList]
  | cons c cs ih =>
    have := escChar_ne_nil c
    have hlen : 1 ≤ (escChar c).length := by
      cases hesc : escChar c with
      | nil => exact absurd hesc this
      | cons a l => simp
    simp only [escapeList, List.length_append, List.length_cons]
    omega

theorem serL_ne_nil (v : JVal) : serL v ≠ [] := by
  cases v with
  | str s => simp [serL]
  | int i =>
    simp only [serL, intChars]
    split
    · simp
    · rw [natDigsC_eq]
      exact natDigs_ne_nil _
  | arr xs => cases xs <;> simp [serL]
  | obj l => simp [serL]

theorem serL_len_pos (v : JVal) : 1 ≤ (serL v).length := by
  cases hs : serL v with
  | nil => exact absurd hs (serL_ne_nil v)
  | cons a l => simp

theorem isDigCh_ne_quote {c : Char} (h : isDigCh c = true) : c ≠ '"' := by
  intro hc
  subst hc
  simp [isDigCh] at h

theorem isDigCh_ne_minus {c : Char} (h : isDigCh c = true) : c ≠ '-' := by
  intro hc
  subst hc
  simp [isDigCh] at h

theorem parseJ_str (fuel : Nat) (r : List Char) :
    parseJ (fuel + 1) ('"' :: r) =
      (parseStringBody fuel r).map (fun p => (.str ⟨p.1⟩, p.2)) := rfl

theorem parseJ_negDigit (fuel : Nat) (d : Char) (r : List Char) (n : Nat) (rest : List Char)
    (hd : isDigCh d = true) (hp : parseDigitsAux 0 (d :: r) = (n, rest)) :
    parseJ (fuel + 1) ('-' :: d :: r) = some (.int (-(n : Int)), rest) := by
  have h0 : parseJ (fuel + 1) ('-' :: d :: r) =
      (if isDigCh d then
        match parseDigitsAux 0 (d :: r) with
        | (n, rest) => some (.int (-(n : Int)), rest)
      else none) := rfl
  rw [h0, if_pos hd, hp]

theorem parseJ_cons (fuel : Nat) (c : Char) (r : List Char) :
    parseJ (fuel + 1) (c :: r) =
      (if c = '"' then (parseStringBody fuel r).map (fun p => (.str ⟨p.1⟩, p.2))
      else if c = '-' then
        match r with
        | d :: _ =>
          if isDigCh d then
            match parseDigitsAux 0 r with
            | (n, rest) => some (.int (-(n : Int)), rest)
          else none
        | [] => none
      else if isDigCh c then
        match parseDigitsAux 0 (c :: r) with
        | (n, rest) => some (.int (n : Int), rest)
      else if c = '[' then
        match r with
        | [] => none
        | d :: r2 =>
          if d = ']' then some (.arr [], r2)
          else (parseItems fuel (d :: r2)).map (fun p => (.arr p.1, p.2))
      else if c = '\x7b' then
        match r with
        | [] => none
        | d :: r2 =>
          if d = '\x7d' then some (.obj [], r2)
          else (parseFields fuel (d :: r2)).map (fun p => (.obj p.1, p.2))
      else none) := rfl

theorem parseJ_posDigit (fuel : Nat) (c : Char) (r : List Char) (n : Nat) (rest : List Char)
    (hc : isDigCh c = true) (hp : parseDigitsAux 0 (c :: r) = (n, rest)) :
    parseJ (fuel + 1) (c :: r) = some (.int (n : Int), rest) := by
  rw [parseJ_cons, if_neg (isDigCh_ne_quote hc), if_neg (isDigCh_ne_minus hc), if_pos hc, hp]

theorem parseJ_int (i : Int) (fuel : Nat) (rest : List Char) (h : headIsDig rest = false) :
    parseJ (fuel + 1) (intChars i ++ rest) = some (.int i, rest) := by
  by_cases hneg : i < 0
  · rw [intChars, if_pos hneg, natDigsC_eq]
    obtain ⟨c, cs, hc, hd⟩ := natDigs_head_dig i.natAbs
    rw [List.cons_append, hc, List.cons_append,
      parseJ_negDigit fuel c (cs ++ rest) i.natAbs rest hd
        (by rw [← List.cons_append, ← hc]; exact parseDigits_natDigs i.natAbs rest h)]
    have harith : -((i.natAbs : Nat) : Int) = i := by omega
    rw [harith]
  · rw [intChars, if_neg hneg, natDigsC_eq]
    obtain ⟨c, cs, hc, hd⟩ := natDigs_head_dig i.toNat
    rw [hc, List.cons_append,
      parseJ_posDigit fuel c (cs ++ rest) i.toNat rest hd
        (by rw [← List.cons_append, ← hc]; exact parseDigits_natDigs i.toNat rest h)]
    have harith : ((i.toNat : Nat) : Int) = i := by omega
    rw [harith]

theorem parseJ_arrNil (fuel : Nat) (r : List Char) :
    parseJ (fuel + 1) ('[' :: ']' :: r) = some (.arr [], r) := rfl

theorem parseJ_arrCons (fuel : Nat) (d : Char) (r2 : List Char) (hd : d ≠ ']') :
    parseJ (fuel + 1) ('[' :: d :: r2) =
      (parseItems fuel (d :: r2)).map (fun p => (.arr p.1, p.2)) := by
  have h0 : parseJ (fuel + 1) ('[' :: d :: r2) =
      (if d = ']' then some (.arr [], r2)
       else (parseItems fuel (d :: r2)).map (fun p => (.arr p.1, p.2))) := rfl
  rw [h0, if_neg hd]

theorem parseJ_objNil (fuel : Nat) (r : List Char) :
    parseJ (fuel + 1) ('\x7b' :: '\x7d' :: r) = some (.obj [], r) := rfl

theorem parseJ_objCons (fuel : Nat) (d : Char) (r2 : List Char) (hd : d ≠ '\x7d') :
    parseJ (fuel + 1) ('\x7b' :: d :: r2) =
      (parseFields fuel (d :: r2)).map (fun p => (.obj p.1, p.2)) := by
  have h0 : parseJ (fuel + 1) ('\x7b' :: d :: r2) =
      (if d = '\x7d' then some (.obj [], r2)
       else (parseFields fuel (d :: r2)).map (fun p => (.obj p.1, p.2))) := rfl
  rw [h0, if_neg hd]

theorem parseItems_some (fuel : Nat) (input : List Char) (v : JVal) (rest : List Char)
    (h : parseJ fuel input = some (v, rest)) :
    parseItems (fuel + 1) input = itemsSep (parseItems fuel) v rest := by
  have h0 : parseItems (fuel + 1) input =
      (match parseJ fuel input with
      | none => none
      | some (v, rest) => itemsSep (parseItems fuel) v rest) := rfl
  rw [h0]
  simp only [h]

theorem parseFields_some (fuel : Nat) (r : List Char) (k : List Char) (rest : List Char)
    (h : parseStringBody fuel r = some (k, rest)) :
    parseFields (fuel + 1) ('"' :: r) = fieldsKey (parseJ fuel) (parseFields fuel) k rest := by
  have h0 : parseFields (fuel + 1) ('"' :: r) =
      (match parseStringBody fuel r with
      | none => none
      | some (k, rest) => fieldsKey (parseJ fuel) (parseFields fuel) k rest) := rfl
  rw [h0]
  simp only [h]

/-- Statement of the dumps/loads round trip for one value: parsing its
serialization (with anything not starting with a digit following) gives back
its canonical form. -/
def RoundTrip (v : JVal) : Prop :=
  ∀ fuel rest, (serL v).length < fuel → headIsDig rest = false →
    parseJ fuel (serL v ++ rest) = some (canon v, rest)

theorem items_roundtrip : ∀ (xs : List JVal) (x : JVal),
    (∀ v ∈ x :: xs, RoundTrip v) →
    ∀ fuel rest, (serL x ++ serTail xs).length + 1 < fuel →
      parseItems fuel (serL x ++ serTail xs ++ ']' :: rest) =
        some (canon x :: canonList xs, rest) := by
  intro xs
  induction xs with
  | nil =>
    intro x hIH fuel rest hf
    cases fuel with
    | zero => omega
    | succ f =>
      simp only [serTail, List.append_nil] at hf ⊢
      have hx : parseJ f (serL x ++ ']' :: rest) = some (canon x, ']' :: rest) :=
        hIH x (by simp) f (']' :: rest) (by omega) rfl
      rw [parseItems_some f _ _ _ hx]
      simp [itemsSep, canonList]
  | cons y ys ih =>
    intro x hIH fuel rest hf
    cases fuel with
    | zero => omega
    | succ f =>
      have hlen : (serL x).length + ((serL y).length + (serTail ys).length + 2) + 1 < f + 1 := by
        simp only [serTail, List.length_append, List.length_cons] at hf
        omega
      have hx : parseJ f (serL x ++ (',' :: ' ' :: (serL y ++ serTail ys ++ ']' :: rest))) =
          some (canon x, ',' :: ' ' :: (serL y ++ serTail ys ++ ']' :: rest)) := by
        refine hIH x (by simp) f _ ?_ rfl
        have := serL_len_pos y
        omega
      have hinput : serL x ++ serTail (y :: ys) ++ ']' :: rest =
          serL x ++ (',' :: ' ' :: (serL y ++ serTail ys ++ ']' :: rest)) := by
        simp [serTail]
      rw [hinput, parseItems_some f _ _ _ hx]
      have hrec := ih y (fun v hv => hIH v (by
        rcases List.mem_cons.mp hv with h | h
        · simp [h]
        · simp [h])) f rest (by
          have := serL_len_pos x
          simp only [List.length_append]
          omega)
      simp only [itemsSep, if_neg (by decide : ¬ (',' = ']')), if_pos rfl,
        if_pos rfl]
      rw [hrec]
      rfl

theorem fieldsKey_colon (pj : List Char → Option (JVal × List Char))
    (pf : List Char → Option (List (String × JVal) × List Char))
    (k : List Char) (v : JVal) (rest2 r3 : List Char) (h : pj r3 = some (v, rest2)) :
    fieldsKey pj pf k (':' :: ' ' :: r3) = fieldsVal pf k v rest2 := by
  have h0 : fieldsKey pj pf k (':' :: ' ' :: r3) =
      (match pj r3 with | none => none | some (v, rest2) => fieldsVal pf k v rest2) := rfl
  rw [h0]
  simp only [h]

theorem fieldsVal_close (pf : List Char → Option (List (String × JVal) × List Char))
    (k : List Char) (v : JVal) (r4 : List Char) :
    fieldsVal pf k v ('\x7d' :: r4) = some ([(⟨k⟩, v)], r4) := rfl

theorem fieldsVal_comma (pf : List Char → Option (List (String × JVal) × List Char))
    (k : List Char) (v : JVal) (r5 : List Char) :
    fieldsVal pf k v (',' :: ' ' :: r5) = (pf r5).map (fun p => ((⟨k⟩, v) :: p.1, p.2)) := rfl

theorem renderFields_single (a : String × String) : renderFields [a] = fieldChars a := rfl

theorem renderFields_cons2 (a b : String × String) (fs : List (String × String)) :
    renderFields (a :: b :: fs) = fieldChars a ++ ',' :: ' ' :: renderFields (b :: fs) := rfl

theorem fieldChars_len (p : String × String) :
    (fieldChars p).length = (escapeList p.1.data).length + p.2.data.length + 4 := by
  simp [fieldChars]
  omega

theorem fields_roundtrip : ∀ (m : List (String × JVal)) (p : String × JVal),
    (∀ q ∈ p :: m, RoundTrip q.2) →
    ∀ fuel rest, (renderFields (serFields (p :: m))).length + 1 < fuel →
      parseFields fuel (renderFields (serFields (p :: m)) ++ '\x7d' :: rest) =
        some (canonFields (p :: m), rest) := by
  intro m
  induction m with
  | nil =>
    intro p hIH fuel rest hf
    obtain ⟨k, v⟩ := p
    cases fuel with
    | zero => omega
    | succ f =>
      have hlen : (escapeList k.data).length + (serL v).length + 4 + 1 < f + 1 := by
        have := fieldChars_len (k, (⟨serL v⟩ : String))
        simp only [serFields, renderFields_single] at hf
        simp only [this] at hf
        exact hf
      have hkd := escapeList_len_ge k.data
      have hinput : renderFields (serFields [(k, v)]) ++ '\x7d' :: rest =
          '"' :: (escapeList k.data ++ '"' :: (':' :: ' ' :: (serL v ++ '\x7d' :: rest))) := by
        simp [serFields, renderFields_single, fieldChars, List.append_assoc]
      rw [hinput,
        parseFields_some f _ _ _ (psb_escape k.data f _ (by omega)),
        fieldsKey_colon _ _ _ (canon v) ('\x7d' :: rest) _
          (hIH (k, v) (by simp) f ('\x7d' :: rest)
            (by show (serL v).length < f; omega) rfl),
        fieldsVal_close]
      rfl
  | cons q ms ih =>
    intro p hIH fuel rest hf
    obtain ⟨k, v⟩ := p
    cases fuel with
    | zero => omega
    | succ f =>
      have hflen : (renderFields (serFields ((k, v) :: q :: ms))).length =
          (escapeList k.data).length + (serL v).length + 4 + 2 +
            (renderFields (serFields (q :: ms))).length := by
        have h1 : serFields ((k, v) :: q :: ms) =
            (k, (⟨serL v⟩ : String)) :: serFields (q :: ms) := rfl
        have h2 : serFields (q :: ms) = (q.1, (⟨serL q.2⟩ : String)) :: serFields ms := by
          obtain ⟨qk, qv⟩ := q
          rfl
        rw [h1, h2, renderFields_cons2, ← h2]
        simp only [List.length_append, List.length_cons, fieldChars_len]
        omega
      rw [hflen] at hf
      have hkd := escapeList_len_ge k.data
      have hinput : renderFields (serFields ((k, v) :: q :: ms)) ++ '\x7d' :: rest =
          '"' :: (escapeList k.data ++ '"' :: (':' :: ' ' ::
            (serL v ++ ',' :: ' ' :: (renderFields (serFields (q :: ms)) ++ '\x7d' :: rest)))) := by
        have h1 : serFields ((k, v) :: q :: ms) =
            (k, (⟨serL v⟩ : String)) :: serFields (q :: ms) := rfl
        have h2 : serFields (q :: ms) = (q.1, (⟨serL q.2⟩ : String)) :: serFields ms := by
          obtain ⟨qk, qv⟩ := q
          rfl
        rw [h1, h2, renderFields_cons2, ← h2]
        simp [fieldChars, List.append_assoc]
      rw [hinput,
        parseFields_some f _ _ _ (psb_escape k.data f _ (by omega)),
        fieldsKey_colon _ _ _ (canon v)
          (',' :: ' ' :: (renderFields (serFields (q :: ms)) ++ '\x7d' :: rest)) _
          (hIH (k, v) (by simp) f
            (',' :: ' ' :: (renderFields (serFields (q :: ms)) ++ '\x7d' :: rest))
            (by show (serL v).length < f; omega) rfl),
        fieldsVal_comma]
      rw [ih q (fun r hr => hIH r (by
        rcases List.mem_cons.mp hr with h | h
        · simp [h]
        · simp [h])) f rest (by omega)]
      rfl

theorem serL_str (s : String) : serL (.str s) = '"' :: escapeList s.data ++ ['"'] := rfl

theorem serL_int (i : Int) : serL (.int i) = intChars i := rfl

theorem serL_arrNil : serL (.arr []) = ['[', ']'] := rfl

theorem serL_arrCons (x : JVal) (xs : List JVal) :
    serL (.arr (x :: xs)) = '[' :: (serL x ++ serTail xs) ++ [']'] := rfl

theorem serL_obj (l : List (String × JVal)) :
    serL (.obj l) = '\x7b' :: renderFields (sortPairs (serFields l)) ++ ['\x7d'] := rfl

theorem canon_str (s : String) : canon (.str s) = .str s := rfl

theorem canon_int (i : Int) : canon (.int i) = .int i := rfl

theorem canon_arr (xs : List JVal) : canon (.arr xs) = .arr (canonList xs) := rfl

theorem canon_obj (l : List (String × JVal)) :
    canon (.obj l) = .obj (sortPairs (canonFields l)) := rfl

theorem serL_head_ne_close (v : JVal) :
    ∀ c cs, serL v = c :: cs → c ≠ ']' ∧ c ≠ '\x7d' := by
  cases v with
  | str s =>
    intro c cs h
    rw [serL_str] at h
    injection h with h1 _
    subst h1
    exact ⟨by decide, by decide⟩
  | int i =>
    intro c cs h
    rw [serL_int, intChars] at h
    split at h
    · injection h with h1 _
      subst h1
      exact ⟨by decide, by decide⟩
    · rw [natDigsC_eq] at h
      obtain ⟨d, ds, hd, hdig⟩ := natDigs_head_dig i.toNat
      rw [hd] at h
      injection h with h1 _
      subst h1
      simp only [isDigCh, Bool.and_eq_true, decide_eq_true_eq] at hdig
      constructor
      · intro hc; subst hc; simp at hdig
      · intro hc; subst hc; simp at hdig
  | arr xs =>
    intro c cs h
    cases xs with
    | nil =>
      rw [serL_arrNil] at h
      injection h with h1 _
      subst h1
      exact ⟨by decide, by decide⟩
    | cons x xs =>
      rw [serL_arrCons] at h
      injection h with h1 _
      subst h1
      exact ⟨by decide, by decide⟩
  | obj l =>
    intro c cs h
    rw [serL_obj] at h
    injection h with h1 _
    subst h1
    exact ⟨by decide, by decide⟩

theorem renderFields_serFields_head (p : String × JVal) (ms : List (String × JVal)) :
    ∃ t, renderFields (serFields (p :: ms)) = '"' :: t := by
  obtain ⟨k, v⟩ := p
  cases ms with
  | nil => exact ⟨_, rfl⟩
  | cons q ms =>
    have h2 : serFields (q :: ms) = (q.1, (⟨serL q.2⟩ : String)) :: serFields ms := by
      obtain ⟨qk, qv⟩ := q
      rfl
    refine ⟨escapeList k.data ++ '"' :: ':' :: ' ' :: serL v ++
      ',' :: ' ' :: renderFields (serFields (q :: ms)), ?_⟩
    have h1 : serFields ((k, v) :: q :: ms) =
        (k, (⟨serL v⟩ : String)) :: serFields (q :: ms) := rfl
    rw [h1, h2, renderFields_cons2, ← h2]
    simp [fieldChars]

theorem serL_roundTrip : ∀ v, RoundTrip v := by
  refine JVal.indOn RoundTrip ?_ ?_ ?_ ?_
  · intro s fuel rest hf hdig
    cases fuel with
    | zero => simp at hf
    | succ f =>
      have hlen : (escapeList s.data).length + 2 < f + 1 := by
        rw [serL_str] at hf
        simp only [List.length_append, List.length_cons, List.length_nil] at hf
        omega
      have hsd := escapeList_len_ge s.data
      have hin : serL (.str s) ++ rest = '"' :: (escapeList s.data ++ '"' :: rest) := by
        rw [serL_str]
        simp [List.append_assoc]
      rw [hin, parseJ_str, psb_escape s.data f rest (by omega)]
      rfl
  · intro i fuel rest hf hdig
    cases fuel with
    | zero => simp at hf
    | succ f =>
      rw [serL_int, parseJ_int i f rest hdig, canon_int]
  · intro xs hmem fuel rest hf hdig
    cases xs with
    | nil =>
      cases fuel with
      | zero => simp at hf
      | succ f =>
        rw [serL_arrNil]
        show parseJ (f + 1) ('[' :: ']' :: rest) = some (canon (.arr []), rest)
        rw [parseJ_arrNil]
        rfl
    | cons x xs =>
      cases fuel with
      | zero => simp at hf
      | succ f =>
        obtain ⟨c, cs, hc⟩ : ∃ c cs, serL x = c :: cs := by
          cases hsx : serL x with
          | nil => exact absurd hsx (serL_ne_nil x)
          | cons a l => exact ⟨a, l, rfl⟩
        have hne := (serL_head_ne_close x c cs hc).1
        have hlen : (serL x ++ serTail xs).length + 1 < f := by
          rw [serL_arrCons] at hf
          simp only [List.length_append, List.length_cons, List.length_nil] at hf ⊢
          omega
        have hin : serL (.arr (x :: xs)) ++ rest =
            '[' :: c :: (cs ++ serTail xs ++ ']' :: rest) := by
          rw [serL_arrCons, hc]
          simp [List.append_assoc]
        rw [hin, parseJ_arrCons f c _ hne]
        have hback : c :: (cs ++ serTail xs ++ ']' :: rest) =
            serL x ++ serTail xs ++ ']' :: rest := by
          rw [hc]
          simp [List.append_assoc]
        rw [hback, items_roundtrip xs x hmem (f) rest hlen]
        rfl
  · intro l hmem fuel rest hf hdig
    cases l with
    | nil =>
      cases fuel with
      | zero => simp at hf
      | succ f =>
        rw [serL_obj]
        show parseJ (f + 1) ('\x7b' :: '\x7d' :: rest) = some (canon (.obj []), rest)
        rw [parseJ_objNil]
        rfl
    | cons p0 l' =>
      cases fuel with
      | zero => simp at hf
      | succ f =>
      have hcomm : sortPairs (serFields (p0 :: l')) = serFields (sortPairs (p0 :: l')) := by
        rw [serFields_eq_map, serFields_eq_map,
          ← sortPairs_map_fst_pres (fun p => (p.1, (⟨serL p.2⟩ : String))) (fun p => rfl)]
      obtain ⟨p, ms, hm⟩ : ∃ p ms, sortPairs (p0 :: l') = p :: ms := by
        cases hsp : sortPairs (p0 :: l') with
        | nil =>
          have := (sortPairs_perm (p0 :: l')).length_eq
          rw [hsp] at this
          simp at this
        | cons a as => exact ⟨a, as, rfl⟩
      obtain ⟨t, ht⟩ := renderFields_serFields_head p ms
      have hlen : (renderFields (serFields (p :: ms))).length + 1 < f := by
        rw [serL_obj, hcomm, hm] at hf
        simp only [List.length_append, List.length_cons, List.length_nil] at hf ⊢
        omega
      have hin : serL (.obj (p0 :: l')) ++ rest =
          '\x7b' :: '"' :: (t ++ '\x7d' :: rest) := by
        rw [serL_obj, hcomm, hm, ht]
        simp [List.append_assoc]
      rw [hin, parseJ_objCons f '"' _ (by decide)]
      have hback : ('"' : Char) :: (t ++ '\x7d' :: rest) =
          renderFields (serFields (p :: ms)) ++ '\x7d' :: rest := by
        rw [ht]
        simp
      rw [hback, fields_roundtrip ms p (fun q hq => hmem q
        (by
          have : q ∈ sortPairs (p0 :: l') := by rw [hm]; exact hq
          exact (sortPairs_perm (p0 :: l')).mem_iff.mp this)) f rest hlen]
      rw [canon_obj]
      have hcanon : canonFields (p :: ms) = sortPairs (canonFields (p0 :: l')) := by
        rw [← hm, canonFields_eq_map, canonFields_eq_map,
          ← sortPairs_map_fst_pres (fun p => (p.1, canon p.2)) (fun p => rfl)]
      rw [hcanon]
      rfl

theorem jdecode_serStr (v : JVal) : jdecode (serStr v) = some (canon v) := by
  have h : parseJ ((serStr v).data.length + 1) (serStr v).data = some (canon v, []) := by
    show parseJ ((serL v).length + 1) (serL v) = _
    have h2 := serL_roundTrip v ((serL v).length + 1) [] (by omega) rfl
    rw [List.append_nil] at h2
    exact h2
  have h0 : jdecode (serStr v) =
      (match parseJ ((serStr v).data.length + 1) (serStr v).data with
      | some (v, []) => some v
      | _ => none) := rfl
  rw [h0]
  simp only [h]

theorem serFields_canonFields (l : List (String × JVal))
    (h : ∀ p ∈ l, serL (canon p.2) = serL p.2) :
    serFields (canonFields l) = serFields l := by
  induction l with
  | nil => rfl
  | cons p l ih =>
    obtain ⟨k, v⟩ := p
    have h1 : canonFields ((k, v) :: l) = (k, canon v) :: canonFields l := rfl
    rw [h1]
    have h2 : serFields ((k, canon v) :: canonFields l) =
        (k, (⟨serL (canon v)⟩ : String)) :: serFields (canonFields l) := rfl
    have h3 : serFields ((k, v) :: l) = (k, (⟨serL v⟩ : String)) :: serFields l := rfl
    rw [h2, h3, h (k, v) (by simp), ih (fun p hp => h p (by simp [hp]))]

theorem serTail_canonList (xs : List JVal) (h : ∀ x ∈ xs, serL (canon x) = serL x) :
    serTail (canonList xs) = serTail xs := by
  induction xs with
  | nil => rfl
  | cons x xs ih =>
    have h1 : canonList (x :: xs) = canon x :: canonList xs := rfl
    rw [h1]
    show ',' :: ' ' :: serL (canon x) ++ serTail (canonList xs) = _
    rw [h x (by simp), ih (fun y hy => h y (by simp [hy]))]
    rfl

theorem ser_canon : ∀ v, serL (canon v) = serL v := by
  refine JVal.indOn (fun v => serL (canon v) = serL v) ?_ ?_ ?_ ?_
  · intro s; rfl
  · intro i; rfl
  · intro xs hmem
    cases xs with
    | nil => rfl
    | cons x xs =>
      rw [canon_arr]
      have h1 : canonList (x :: xs) = canon x :: canonList xs := rfl
      rw [h1, serL_arrCons, serL_arrCons, hmem x (by simp),
        serTail_canonList xs (fun y hy => hmem y (by simp [hy]))]
  · intro l hmem
    rw [canon_obj, serL_obj, serL_obj]
    have hc1 : serFields (sortPairs (canonFields l)) = sortPairs (serFields (canonFields l)) := by
      rw [serFields_eq_map, serFields_eq_map,
        ← sortPairs_map_fst_pres (fun p => (p.1, (⟨serL p.2⟩ : String))) (fun p => rfl)]
    rw [hc1, sortPairs_idem, serFields_canonFields l hmem]

theorem string_mk_data (s : String) : (⟨s.data⟩ : String) = s := rfl

theorem string_data_inj {s t : String} (h : s.data = t.data) : s = t :=
  congrArg String.mk h

theorem sorted_perm_keys_nodup_eq {α : Type} :
    ∀ (l1 l2 : List (String × α)), l1.Perm l2 → l1.Sorted keyLe → l2.Sorted keyLe →
      (l1.map Prod.fst).Nodup → l1 = l2 := by
  intro l1
  induction l1 with
  | nil =>
    intro l2 hp _ _ _
    exact hp.nil_eq
  | cons a l ih =>
    intro l2 hp hs1 hs2 hnd
    cases l2 with
    | nil =>
      have := hp.length_eq
      simp at this
    | cons b l2' =>
      have hab : a = b := by
        have ha2 : a ∈ b :: l2' := hp.mem_iff.mp (by simp)
        have hb1 : b ∈ a :: l := hp.mem_iff.mpr (by simp)
        rcases List.mem_cons.mp ha2 with h | ha2'
        · exact h
        rcases List.mem_cons.mp hb1 with h | hb1'
        · exact h.symm
        have hkab : keyLe a b := (List.sorted_cons.mp hs1).1 b hb1'
        have hkba : keyLe b a := (List.sorted_cons.mp hs2).1 a ha2'
        have hkeys : a.1 = b.1 := string_data_inj (strLeB_antisymm hkab hkba)
        exfalso
        have hmem2 : a.1 ∈ l.map Prod.fst := by
          rw [hkeys]
          exact List.mem_map.mpr ⟨b, hb1', rfl⟩
        have hnd' : (a.1 :: l.map Prod.fst).Nodup := by simpa using hnd
        exact (List.nodup_cons.mp hnd').1 hmem2
      subst hab
      have hnd' : (a.1 :: l.map Prod.fst).Nodup := by simpa using hnd
      rw [ih l2' hp.cons_inv (List.sorted_cons.mp hs1).2 (List.sorted_cons.mp hs2).2
        (List.nodup_cons.mp hnd').2]

/-- One entry of an ApiKeySet key list (the dicts stored in the keys field). -/
structure KeyEntry where
  key : String
  status : String
deriving DecidableEq

/-- A document of the Mongo users collection; oid models str(_id), the
storage id the record store assigns at insertion. -/
structure MUser where
  oid : String
  id : Int
  name : String
  company : String
  status : String
deriving DecidableEq

/-- A document of the Mongo keys collection: its own _id, the storage id of
the owning user in the id field, and the key list. -/
structure MKeyDoc where
  oid : String
  id : String
  keys : List KeyEntry
deriving DecidableEq

/-- The external state of the service: the two Mongo collections (users,
keys) and the two Redis lists (users_list, api_keys_list) of serialized
entries, in order. -/
structure St where
  users : List MUser
  keys : List MKeyDoc
  usersList : List String
  apiKeysList : List String
deriving DecidableEq

/-- The JSON dict of one key entry. -/
def keyEntryJ (e : KeyEntry) : JVal := .obj [("key", .str e.key), ("status", .str e.status)]

/-- The JSON array of a key list. -/
def keysJ (ks : List KeyEntry) : JVal := .arr (ks.map keyEntryJ)

/-- user_dict as pushed to Redis by create_user: the request fields plus the
"_id" entry added after insertion (convert_object_ids turns the ObjectId into
its string form, modelled by oid). -/
def userDocJ (u : MUser) : JVal :=
  .obj [("id", .int u.id), ("name", .str u.name), ("company", .str u.company),
        ("status", .str u.status), ("_id", .str u.oid)]

/-- api_doc of create_user and updated_doc of remove_api_key: only "id" and
"keys", no "_id". -/
def apiDocJ (mid : String) (ks : List KeyEntry) : JVal :=
  .obj [("id", .str mid), ("keys", keysJ ks)]

/-- key_doc_serialized of create_api_key: the Mongo document (which carries
its "_id", stringified by convert_object_ids) with the key list. -/
def keyDocJ (d : MKeyDoc) : JVal :=
  .obj [("id", .str d.id), ("keys", keysJ d.keys), ("_id", .str d.oid)]

/-- The error responses of the route handlers: 400 Conflict, 404 NotFound
(each with its detail string), and an unhandled exception propagating as a
server error. -/
inductive ApiErr where
  | conflict : String → ApiErr
  | notFound : String → ApiErr
  | serverError : ApiErr
deriving DecidableEq

/-- Is this error a 404? -/
def ApiErr.isNotFound : ApiErr → Bool
  | .notFound _ => true
  | _ => false

/-- The key alphabet of generate_api_key: string.ascii_letters +
string.digits + "!@#$%^&*()_+-=". -/
def keyAlphabet : List Char :=
  "abcdefghijklmnopqrstuvwxyzABCDEFGHIJKLMNOPQRSTUVWXYZ0123456789!@#$%^&*()_+-=".data

/-- generate_api_key: length characters, each an independent secure-random
choice from the alphabet; the random source is modelled by the rand function
(position to choice index).  The source's default length is 20 and every
caller uses it. -/
def generate_api_key (rand : Nat → Nat) (len : Nat) : String :=
  ⟨(List.range len).map (fun i => keyAlphabet.getD (rand i % keyAlphabet.length) 'a')⟩

/-- Redis LREM with count 0: remove every element equal to the given value. -/
def lremAll (l : List String) (x : String) : List String := l.filter (fun e => e ≠ x)

/-- json.loads of a cache entry followed by dict access: succeeds only when
the entry parses as a JSON object (otherwise the handler raises). -/
def decodeEntryObj (s : String) : Option (List (String × JVal)) :=
  match jdecode s with
  | some (.obj l) => some l
  | _ => none

/-- Python dict get: with duplicate keys the last value wins, as in the dicts
json.loads builds. -/
def dictGet (l : List (String × JVal)) (k : String) : Option JVal :=
  (l.reverse.find? (fun p => p.1 == k)).map Prod.snd

/-- entry_dict.get("id") == mid for a str mid: only a string value equal to
mid compares true in Python. -/
def entryIdIsStr (l : List (String × JVal)) (mid : String) : Bool :=
  match dictGet l "id" with
  | some (.str s) => s == mid
  | _ => false

/-- entry_dict.get("id") == uid for an int uid. -/
def entryIdIsInt (l : List (String × JVal)) (uid : Int) : Bool :=
  match dictGet l "id" with
  | some (.int n) => n == uid
  | _ => false

/-- The scan pattern of the handlers: for entry in lrange(list, 0, -1):
decode, test, stop at the first hit.  none models an entry that fails to
decode as a dict before any hit (the request raises); some none is a full
scan without a hit; some (some (e, l)) is the first hit together with its
decoded dict. -/
def scanCache (p : List (String × JVal) → Bool) :
    List String → Option (Option (String × List (String × JVal)))
  | [] => some none
  | e :: rest =>
    match decodeEntryObj e with
    | none => none
    | some l => if p l then some (some (e, l)) else scanCache p rest

/-- The cache update used after every ApiKeySet mutation (create_api_key and
remove_api_key have this code verbatim): scan api_keys_list for the first
entry whose decoded "id" equals mongo_id, LREM (count 0) that exact string,
break, then RPUSH the new serialization. -/
def cacheStep (entries : List String) (mid : String) (newJson : String) :
    Option (List String) :=
  match scanCache (fun l => entryIdIsStr l mid) entries with
  | none => none
  | some none => some (entries ++ [newJson])
  | some (some (e, _)) => some (lremAll entries e ++ [newJson])

/-- The request body of POST /users (status defaults to "active" in the
pydantic model when omitted). -/
structure UserIn where
  id : Int
  name : String
  company : String
  status : String
deriving DecidableEq

/-- The success response of create_user. -/
structure CreateUserOut where
  message : String
  user : JVal
  api_key : String

/-- update_one({"id": mid}, {"$set": {"keys": ks}}): replace the key list of
the first matching document. -/
def updateFirstKeys : List MKeyDoc → String → List KeyEntry → List MKeyDoc
  | [], _, _ => []
  | d :: rest, mid, ks =>
    if d.id == mid then { d with keys := ks } :: rest
    else d :: updateFirstKeys rest mid ks

/-- POST /users (create_user of routes.py).  userOid and keyOid are the
storage ids the record store assigns to the two insert_one calls; rand is the
random source of generate_api_key.  Conflict check, then: insert the user,
insert the key set with one fresh valid key, refresh users_list (LREM the
exact new serialization then RPUSH), refresh api_keys_list the same way, and
return the user dict (with "_id") plus the plaintext key. -/
def create_user (st : St) (u : UserIn) (rand : Nat → Nat) (userOid keyOid : String) :
    St × Except ApiErr CreateUserOut :=
  if st.users.any (fun d => d.id == u.id) then
    (st, .error (.conflict "User ID already exists"))
  else
    let userDoc : MUser := ⟨userOid, u.id, u.name, u.company, u.status⟩
    let st1 : St := { st with users := st.users ++ [userDoc] }
    let mongo_id := userOid
    let api_key := generate_api_key rand 20
    let keyDoc : MKeyDoc := ⟨keyOid, mongo_id, [⟨api_key, "valid"⟩]⟩
    let st2 : St := { st1 with keys := st1.keys ++ [keyDoc] }
    let user_json := serStr (userDocJ userDoc)
    let st3 : St := { st2 with usersList := lremAll st2.usersList user_json ++ [user_json] }
    let api_json := serStr (apiDocJ mongo_id keyDoc.keys)
    let st4 : St := { st3 with apiKeysList := lremAll st3.apiKeysList api_json ++ [api_json] }
    (st4, .ok ⟨"User created", userDocJ userDoc, api_key⟩)

/-- POST /users/mongo_id/create_api_key.  The user lookup models
find_one({"_id": ObjectId(mongo_id)}) as a search by storage id.  freshOid is
the _id the record store would assign if a new key document is inserted
(insert_one also writes it back into the in-memory dict, which is then
serialized for the cache). -/
def create_api_key (st : St) (mongo_id : String) (rand : Nat → Nat) (freshOid : String) :
    St × Except ApiErr String :=
  match st.users.find? (fun d => d.oid == mongo_id) with
  | none => (st, .error (.notFound "User not found"))
  | some _ =>
    let new_key := generate_api_key rand 20
    match st.keys.find? (fun d => d.id == mongo_id) with
    | none =>
      let kd : MKeyDoc := ⟨freshOid, mongo_id, [⟨new_key, "valid"⟩]⟩
      let st1 : St := { st with keys := st.keys ++ [kd] }
      let updated_json := serStr (keyDocJ kd)
      match cacheStep st1.apiKeysList mongo_id updated_json with
      | none => (st1, .error .serverError)
      | some newList => ({ st1 with apiKeysList := newList }, .ok new_key)
    | some kd =>
      let newKeys := kd.keys ++ [⟨new_key, "valid"⟩]
      let st1 : St := { st with keys := updateFirstKeys st.keys mongo_id newKeys }
      let updated_json := serStr (keyDocJ ⟨kd.oid, kd.id, newKeys⟩)
      match cacheStep st1.apiKeysList mongo_id updated_json with
      | none => (st1, .error .serverError)
      | some newList => ({ st1 with apiKeysList := newList }, .ok new_key)

/-- POST /users/mongo_id/remove_api_key?key_to_remove=... : look up the key
document, filter the key list by value, 404 when the document or the key is
missing, persist the filtered list, then refresh api_keys_list with the
remove-first-matching-then-append step; returns the removed key. -/
def remove_api_key (st : St) (mongo_id key_to_remove : String) :
    St × Except ApiErr String :=
  match st.keys.find? (fun d => d.id == mongo_id) with
  | none => (st, .error (.notFound "API key document not found"))
  | some kd =>
    let filtered := kd.keys.filter (fun k => k.key != key_to_remove)
    if filtered.length = kd.keys.length then
      (st, .error (.notFound "API key not found"))
    else
      let st1 : St := { st with keys := updateFirstKeys st.keys mongo_id filtered }
      let updated_json := serStr (apiDocJ mongo_id filtered)
      match cacheStep st1.apiKeysList mongo_id updated_json with
      | none => (st1, .error .serverError)
      | some newList => ({ st1 with apiKeysList := newList }, .ok key_to_remove)

/-- GET /users/mongo_id/list_api_keys: linear scan of api_keys_list from the
head, return the decoded dict of the first entry whose "id" equals mongo_id,
else 404. -/
def list_api_keys (st : St) (mongo_id : String) : Except ApiErr JVal :=
  match scanCache (fun l => entryIdIsStr l mongo_id) st.apiKeysList with
  | none => .error .serverError
  | some none => .error (.notFound "API keys not found in Redis")
  | some (some (_, l)) => .ok (.obj l)

/-- GET /users/user_id: linear scan of users_list from the head, return the
decoded dict of the first entry whose "id" equals user_id, else 404. -/
def get_user (st : St) (user_id : Int) : Except ApiErr JVal :=
  match scanCache (fun l => entryIdIsInt l user_id) st.usersList with
  | none => .error .serverError
  | some none => .error (.notFound "User not found in Redis")
  | some (some (_, l)) => .ok (.obj l)

/-- A cache entry the scan can decode. -/
def entryWF (s : String) : Bool := (decodeEntryObj s).isSome

/-- A cache list every handler scan can fully traverse. -/
def cacheWF (entries : List String) : Bool := entries.all entryWF

/-- Does an entry decode to a dict whose "id" is this storage id. -/
def entryIdMatches (s mid : String) : Bool :=
  match decodeEntryObj s with
  | some l => entryIdIsStr l mid
  | none => false

/-- The first entry of the list decoding to this storage id. -/
def firstMatch (entries : List String) (mid : String) : Option String :=
  entries.find? (fun e => entryIdMatches e mid)

/-- How many entries of the list decode to this storage id. -/
def countMatching (entries : List String) (mid : String) : Nat :=
  (entries.filter (fun e => entryIdMatches e mid)).length

/-- The state with both stores empty. -/
def emptySt : St := ⟨[], [], [], []⟩

theorem generate_api_key_length (rand : Nat → Nat) (len : Nat) :
    (generate_api_key rand len).length = len := by
  show (List.map _ (List.range len)).length = len
  simp

theorem keyAlphabet_length : keyAlphabet.length = 76 := rfl

theorem generate_api_key_chars (rand : Nat → Nat) (len : Nat) :
    ∀ c ∈ (generate_api_key rand len).data, c ∈ keyAlphabet := by
  intro c hc
  have hc' : c ∈ (List.range len).map (fun i => keyAlphabet.getD (rand i % keyAlphabet.length) 'a') := hc
  obtain ⟨i, _, hi⟩ := List.mem_map.mp hc'
  have hlt : rand i % keyAlphabet.length < keyAlphabet.length := by
    rw [keyAlphabet_length]
    omega
  rw [← hi, List.getD_eq_getElem keyAlphabet 'a' hlt]
  exact List.getElem_mem hlt

theorem canon_keyEntryJ (e : KeyEntry) : canon (keyEntryJ e) = keyEntryJ e := rfl

theorem canon_keysJ (ks : List KeyEntry) : canon (keysJ ks) = keysJ ks := by
  rw [keysJ, canon_arr, canonList_eq_map, List.map_map]
  congr 1

theorem sortPairs_api (a b : JVal) :
    sortPairs [("id", a), ("keys", b)] = [("id", a), ("keys", b)] := rfl

theorem canon_apiDocJ (mid : String) (ks : List KeyEntry) :
    canon (apiDocJ mid ks) = apiDocJ mid ks := by
  rw [apiDocJ, canon_obj]
  have h1 : canonFields [("id", .str mid), ("keys", keysJ ks)] =
      [("id", .str mid), ("keys", canon (keysJ ks))] := rfl
  rw [h1, canon_keysJ, sortPairs_api]

theorem sortPairs_keyDoc (a b c : JVal) :
    sortPairs [("id", a), ("keys", b), ("_id", c)] =
      [("_id", c), ("id", a), ("keys", b)] := rfl

theorem canon_keyDocJ (d : MKeyDoc) :
    canon (keyDocJ d) =
      .obj [("_id", .str d.oid), ("id", .str d.id), ("keys", keysJ d.keys)] := by
  rw [keyDocJ, canon_obj]
  have h1 : canonFields [("id", .str d.id), ("keys", keysJ d.keys), ("_id", .str d.oid)] =
      [("id", .str d.id), ("keys", canon (keysJ d.keys)), ("_id", .str d.oid)] := rfl
  rw [h1, canon_keysJ, sortPairs_keyDoc]

theorem canon_userDocJ (u : MUser) :
    canon (userDocJ u) =
      .obj [("_id", .str u.oid), ("company", .str u.company), ("id", .int u.id),
            ("name", .str u.name), ("status", .str u.status)] := rfl

theorem decode_apiDocJ (mid : String) (ks : List KeyEntry) :
    decodeEntryObj (serStr (apiDocJ mid ks)) =
      some [("id", .str mid), ("keys", keysJ ks)] := by
  have h0 : decodeEntryObj (serStr (apiDocJ mid ks)) =
      (match jdecode (serStr (apiDocJ mid ks)) with
      | some (.obj l) => some l
      | _ => none) := rfl
  rw [h0, jdecode_serStr, canon_apiDocJ]
  rfl

theorem decode_keyDocJ (d : MKeyDoc) :
    decodeEntryObj (serStr (keyDocJ d)) =
      some [("_id", .str d.oid), ("id", .str d.id), ("keys", keysJ d.keys)] := by
  have h0 : decodeEntryObj (serStr (keyDocJ d)) =
      (match jdecode (serStr (keyDocJ d)) with
      | some (.obj l) => some l
      | _ => none) := rfl
  rw [h0, jdecode_serStr, canon_keyDocJ]

theorem decode_userDocJ (u : MUser) :
    decodeEntryObj (serStr (userDocJ u)) =
      some [("_id", .str u.oid), ("company", .str u.company), ("id", .int u.id),
            ("name", .str u.name), ("status", .str u.status)] := by
  have h0 : decodeEntryObj (serStr (userDocJ u)) =
      (match jdecode (serStr (userDocJ u)) with
      | some (.obj l) => some l
      | _ => none) := rfl
  rw [h0, jdecode_serStr, canon_userDocJ]

theorem entryIdIsStr_api (mid : String) (b : JVal) (mid' : String) :
    entryIdIsStr [("id", .str mid), ("keys", b)] mid' = (mid == mid') := rfl

theorem entryIdIsStr_keyDoc (c : JVal) (mid : String) (b : JVal) (mid' : String) :
    entryIdIsStr [("_id", c), ("id", .str mid), ("keys", b)] mid' = (mid == mid') := rfl

theorem entryIdIsStr_user (c : JVal) (co : JVal) (uid : Int) (n s : JVal) (mid' : String) :
    entryIdIsStr [("_id", c), ("company", co), ("id", .int uid), ("name", n),
      ("status", s)] mid' = false := rfl

theorem entryIdIsInt_user (c : JVal) (co : JVal) (uid : Int) (n s : JVal) (uid' : Int) :
    entryIdIsInt [("_id", c), ("company", co), ("id", .int uid), ("name", n),
      ("status", s)] uid' = (uid == uid') := rfl

theorem entryIdMatches_apiDocJ (mid : String) (ks : List KeyEntry) (mid' : String) :
    entryIdMatches (serStr (apiDocJ mid ks)) mid' = (mid == mid') := by
  rw [entryIdMatches, decode_apiDocJ]
  rfl

theorem entryIdMatches_keyDocJ (d : MKeyDoc) (mid' : String) :
    entryIdMatches (serStr (keyDocJ d)) mid' = (d.id == mid') := by
  rw [entryIdMatches, decode_keyDocJ]
  rfl

theorem entryIdMatches_userDocJ (u : MUser) (mid' : String) :
    entryIdMatches (serStr (userDocJ u)) mid' = false := by
  rw [entryIdMatches, decode_userDocJ]
  rfl

/-- Does the entry decode to a dict satisfying p (false also when the entry
does not decode). -/
def entryMatchesP (p : List (String × JVal) → Bool) (s : String) : Bool :=
  match decodeEntryObj s with
  | some l => p l
  | none => false

theorem entryIdMatches_eq_matchesP (s mid : String) :
    entryIdMatches s mid = entryMatchesP (fun l => entryIdIsStr l mid) s := rfl

theorem cacheWF_cons {e : String} {rest : List String} (h : cacheWF (e :: rest) = true) :
    entryWF e = true ∧ cacheWF rest = true := by
  rw [cacheWF, List.all_cons, Bool.and_eq_true] at h
  exact h

theorem scanCache_of_wf (p : List (String × JVal) → Bool) :
    ∀ entries, cacheWF entries = true →
      scanCache p entries =
        some ((entries.find? (entryMatchesP p)).bind
          (fun e => (decodeEntryObj e).map (fun l => (e, l)))) := by
  intro entries
  induction entries with
  | nil => intro _; rfl
  | cons e rest ih =>
    intro hwf
    obtain ⟨hwe, hwr⟩ := cacheWF_cons hwf
    rw [entryWF, Option.isSome_iff_exists] at hwe
    obtain ⟨l, hl⟩ := hwe
    have h0 : scanCache p (e :: rest) =
        (match decodeEntryObj e with
        | none => none
        | some l => if p l then some (some (e, l)) else scanCache p rest) := rfl
    have hmp : entryMatchesP p e = p l := by
      rw [entryMatchesP, hl]
    rw [h0]
    simp only [hl]
    by_cases hp : p l = true
    · rw [if_pos hp, List.find?_cons_of_pos _ (by rw [hmp]; exact hp)]
      simp [hl]
    · rw [if_neg hp, List.find?_cons_of_neg _ (by rw [hmp]; exact hp)]
      exact ih hwr

theorem cacheStep_none (entries : List String) (mid t : String)
    (hwf : cacheWF entries = true) (hfm : firstMatch entries mid = none) :
    cacheStep entries mid t = some (entries ++ [t]) := by
  have h0 : cacheStep entries mid t =
      (match scanCache (fun l => entryIdIsStr l mid) entries with
      | none => none
      | some none => some (entries ++ [t])
      | some (some (e, _)) => some (lremAll entries e ++ [t])) := rfl
  rw [h0, scanCache_of_wf _ entries hwf]
  have : entries.find? (entryMatchesP (fun l => entryIdIsStr l mid)) = none := hfm
  rw [this]
  rfl

theorem cacheStep_some (entries : List String) (mid t e : String)
    (hwf : cacheWF entries = true) (hfm : firstMatch entries mid = some e) :
    cacheStep entries mid t = some (lremAll entries e ++ [t]) := by
  have h0 : cacheStep entries mid t =
      (match scanCache (fun l => entryIdIsStr l mid) entries with
      | none => none
      | some none => some (entries ++ [t])
      | some (some (e, _)) => some (lremAll entries e ++ [t])) := rfl
  rw [h0, scanCache_of_wf _ entries hwf]
  have hfm' : entries.find? (entryMatchesP (fun l => entryIdIsStr l mid)) = some e := hfm
  have hmem : e ∈ entries := List.mem_of_find?_eq_some hfm'
  have hwe : entryWF e = true := by
    rw [cacheWF, List.all_eq_true] at hwf
    exact hwf e hmem
  rw [entryWF, Option.isSome_iff_exists] at hwe
  obtain ⟨l, hl⟩ := hwe
  rw [hfm']
  simp only [Option.some_bind, hl]
  rfl

theorem find?_append_none {α : Type} (p : α → Bool) (pre rest : List α)
    (h : ∀ e ∈ pre, p e = false) : (pre ++ rest).find? p = rest.find? p := by
  induction pre with
  | nil => rfl
  | cons a pre ih =>
    rw [List.cons_append, List.find?_cons_of_neg _ (by simp [h a (by simp)]),
      ih (fun e he => h e (by simp [he]))]

theorem two_matching_le_count (entries : List String) (mid : String) (e x : String)
    (he : e ∈ entries) (hx : x ∈ entries) (hne : e ≠ x)
    (hme : entryIdMatches e mid = true) (hmx : entryIdMatches x mid = true) :
    2 ≤ countMatching entries mid := by
  have hsub : [e, x].Subperm entries := by
    refine List.Nodup.subperm (by simp [hne]) ?_
    intro y hy
    rcases List.mem_cons.mp hy with h | h
    · subst h; exact he
    · rcases List.mem_cons.mp h with h | h
      · subst h; exact hx
      · simp at h
  have hfil := hsub.filter (fun s => entryIdMatches s mid)
  have hlen := hfil.length_le
  have h2 : ([e, x].filter (fun s => entryIdMatches s mid)).length = 2 := by
    simp [List.filter, hme, hmx]
  rw [h2] at hlen
  exact hlen

theorem find_updateFirstKeys (keys : List MKeyDoc) (mid : String) (ks : List KeyEntry)
    (kd : MKeyDoc) (hfind : keys.find? (fun d => d.id == mid) = some kd) :
    (updateFirstKeys keys mid ks).find? (fun d => d.id == mid) =
      some ⟨kd.oid, kd.id, ks⟩ := by
  induction keys with
  | nil => simp at hfind
  | cons d rest ih =>
    have hupd : updateFirstKeys (d :: rest) mid ks =
        (if d.id == mid then { d with keys := ks } :: rest
         else d :: updateFirstKeys rest mid ks) := rfl
    by_cases hd : (d.id == mid) = true
    · rw [@List.find?_cons_of_pos _ (fun d => d.id == mid) d rest hd] at hfind
      injection hfind with hfind
      subst hfind
      rw [hupd, if_pos hd]
      have hd2 : ((({ d with keys := ks } : MKeyDoc)).id == mid) = true := hd
      rw [@List.find?_cons_of_pos _ (fun d => d.id == mid) _ rest hd2]
    · rw [@List.find?_cons_of_neg _ (fun d => d.id == mid) d rest hd] at hfind
      rw [hupd, if_neg hd, @List.find?_cons_of_neg _ (fun d => d.id == mid) d _ hd, ih hfind]

theorem updateFirstKeys_of_absent (keys : List MKeyDoc) (mid : String) (ks : List KeyEntry)
    (h : keys.find? (fun d => d.id == mid) = none) :
    updateFirstKeys keys mid ks = keys := by
  induction keys with
  | nil => rfl
  | cons d rest ih =>
    have hupd : updateFirstKeys (d :: rest) mid ks =
        (if d.id == mid then { d with keys := ks } :: rest
         else d :: updateFirstKeys rest mid ks) := rfl
    rw [List.find?_cons] at h
    split at h
    · simp at h
    · rename_i hd
      rw [hupd, if_neg (by simpa using hd), ih h]

theorem cacheWF_append {l1 l2 : List String} (h1 : cacheWF l1 = true)
    (h2 : cacheWF l2 = true) : cacheWF (l1 ++ l2) = true := by
  rw [cacheWF, List.all_eq_true] at h1 h2 ⊢
  intro e he
  rcases List.mem_append.mp he with h | h
  · exact h1 e h
  · exact h2 e h

theorem cacheWF_filter {l : List String} (q : String → Bool) (h : cacheWF l = true) :
    cacheWF (l.filter q) = true := by
  rw [cacheWF, List.all_eq_true] at h ⊢
  intro e he
  exact h e (List.mem_of_mem_filter he)

theorem entryWF_apiDocJ (mid : String) (ks : List KeyEntry) :
    entryWF (serStr (apiDocJ mid ks)) = true := by
  rw [entryWF, decode_apiDocJ]
  rfl

theorem entryWF_keyDocJ (d : MKeyDoc) : entryWF (serStr (keyDocJ d)) = true := by
  rw [entryWF, decode_keyDocJ]
  rfl

theorem entryWF_userDocJ (u : MUser) : entryWF (serStr (userDocJ u)) = true := by
  rw [entryWF, decode_userDocJ]
  rfl

theorem entryWF_of_decode {t : String} {l : List (String × JVal)}
    (h : decodeEntryObj t = some l) : entryWF t = true := by
  rw [entryWF, h]
  rfl

theorem list_api_keys_last (st : St) (mid : String) (pre : List String) (t : String)
    (l : List (String × JVal))
    (hlist : st.apiKeysList = pre ++ [t]) (hwf : cacheWF pre = true)
    (hnone : ∀ e ∈ pre, entryIdMatches e mid = false)
    (hdec : decodeEntryObj t = some l) (hmatch : entryIdIsStr l mid = true) :
    list_api_keys st mid = .ok (.obj l) := by
  have h0 : list_api_keys st mid =
      (match scanCache (fun fl => entryIdIsStr fl mid) st.apiKeysList with
      | none => .error .serverError
      | some none => .error (.notFound "API keys not found in Redis")
      | some (some (_, fl)) => .ok (.obj fl)) := rfl
  have hwfall : cacheWF (pre ++ [t]) = true := by
    refine cacheWF_append hwf ?_
    rw [cacheWF, List.all_cons, entryWF_of_decode hdec]
    rfl
  have hnone' : ∀ e ∈ pre, entryMatchesP (fun fl => entryIdIsStr fl mid) e = false :=
    fun e he => hnone e he
  have hfind : (pre ++ [t]).find? (entryMatchesP (fun fl => entryIdIsStr fl mid)) = some t := by
    rw [find?_append_none (entryMatchesP (fun fl => entryIdIsStr fl mid)) pre [t] hnone']
    exact List.find?_cons_of_pos _ (by
      show entryMatchesP (fun fl => entryIdIsStr fl mid) t = true
      rw [entryMatchesP, hdec]
      exact hmatch)
  rw [h0, hlist, scanCache_of_wf _ _ hwfall, hfind]
  simp only [Option.some_bind, hdec]
  rfl

theorem firstMatch_none_no_match {entries : List String} {mid : String}
    (h : firstMatch entries mid = none) : ∀ e ∈ entries, entryIdMatches e mid = false := by
  intro e he
  have := List.find?_eq_none.mp h e he
  simpa using this

theorem firstMatch_some_match {entries : List String} {mid : String} {e : String}
    (h : firstMatch entries mid = some e) :
    e ∈ entries ∧ entryIdMatches e mid = true := by
  have h' : entries.find? (fun s => entryIdMatches s mid) = some e := h
  have hp := @List.find?_some String (fun s => entryIdMatches s mid) e entries h'
  exact ⟨List.mem_of_find?_eq_some h', hp⟩

theorem no_match_after_lrem {entries : List String} {mid e : String}
    (hcount : countMatching entries mid ≤ 1) (hfm : firstMatch entries mid = some e) :
    ∀ x ∈ lremAll entries e, entryIdMatches x mid = false := by
  intro x hx
  obtain ⟨hmemx, hnex⟩ := List.mem_filter.mp hx
  by_contra hmx
  have hmx' : entryIdMatches x mid = true := by
    cases h : entryIdMatches x mid with
    | true => rfl
    | false => exact absurd h hmx
  obtain ⟨hmeme, hme⟩ := firstMatch_some_match hfm
  have hne : e ≠ x := by
    intro hex
    subst hex
    simp at hnex
  have := two_matching_le_count entries mid e x hmeme hmemx hne hme hmx'
  omega

theorem beq_string_refl (s : String) : (s == s) = true := by
  simp

theorem create_user_conflict (st : St) (u : UserIn) (rand : Nat → Nat) (uo ko : String)
    (h : st.users.any (fun d => d.id == u.id) = true) :
    create_user st u rand uo ko = (st, .error (.conflict "User ID already exists")) := by
  unfold create_user
  rw [if_pos h]

theorem create_user_success (st : St) (u : UserIn) (rand : Nat → Nat) (uo ko : String)
    (h : st.users.any (fun d => d.id == u.id) = false) :
    create_user st u rand uo ko =
      (⟨st.users ++ [⟨uo, u.id, u.name, u.company, u.status⟩],
        st.keys ++ [⟨ko, uo, [⟨generate_api_key rand 20, "valid"⟩]⟩],
        lremAll st.usersList (serStr (userDocJ ⟨uo, u.id, u.name, u.company, u.status⟩)) ++
          [serStr (userDocJ ⟨uo, u.id, u.name, u.company, u.status⟩)],
        lremAll st.apiKeysList
            (serStr (apiDocJ uo [⟨generate_api_key rand 20, "valid"⟩])) ++
          [serStr (apiDocJ uo [⟨generate_api_key rand 20, "valid"⟩])]⟩,
       .ok ⟨"User created", userDocJ ⟨uo, u.id, u.name, u.company, u.status⟩,
            generate_api_key rand 20⟩) := by
  unfold create_user
  rw [if_neg (by rw [h]; exact Bool.false_ne_true)]

/-- C2: for every createUser call whose id is not already present, the
operation inserts the User document, obtains its storage id, generates
exactly one random API key of exactly 20 characters drawn from the alphabet
of ASCII letters, digits and the fixed punctuation set, inserts a new
ApiKeySet for that storage id containing that single key with status "valid",
and returns the created user with storage id attached together with the
plaintext key. -/
theorem claim_C2 (st : St) (u : UserIn) (rand : Nat → Nat) (uo ko : String)
    (h : ¬ ∃ d ∈ st.users, d.id = u.id) :
    ∃ out : CreateUserOut, (create_user st u rand uo ko).2 = .ok out ∧
      (create_user st u rand uo ko).1.users =
        st.users ++ [⟨uo, u.id, u.name, u.company, u.status⟩] ∧
      (create_user st u rand uo ko).1.keys =
        st.keys ++ [⟨ko, uo, [⟨out.api_key, "valid"⟩]⟩] ∧
      out.api_key.length = 20 ∧
      (∀ c ∈ out.api_key.data, c ∈ keyAlphabet) ∧
      out.user = userDocJ ⟨uo, u.id, u.name, u.company, u.status⟩ ∧
      out.message = "User created" := by
  have hany : st.users.any (fun d => d.id == u.id) = false := by
    rw [List.any_eq_false]
    intro d hd hbeq
    exact h ⟨d, hd, by simpa using hbeq⟩
  rw [create_user_success st u rand uo ko hany]
  exact ⟨⟨"User created", userDocJ ⟨uo, u.id, u.name, u.company, u.status⟩,
    generate_api_key rand 20⟩, rfl, rfl, rfl,
    generate_api_key_length rand 20, generate_api_key_chars rand 20, rfl, rfl⟩

/-- Witness for C2 at a concrete input. -/
theorem claim_C2_witness :
    ∃ out : CreateUserOut,
      (create_user emptySt ⟨1, "Ann", "Acme", "active"⟩ (fun _ => 0) "a" "b").2 = .ok out ∧
      (create_user emptySt ⟨1, "Ann", "Acme", "active"⟩ (fun _ => 0) "a" "b").1.users =
        emptySt.users ++ [⟨"a", 1, "Ann", "Acme", "active"⟩] ∧
      (create_user emptySt ⟨1, "Ann", "Acme", "active"⟩ (fun _ => 0) "a" "b").1.keys =
        emptySt.keys ++ [⟨"b", "a", [⟨out.api_key, "valid"⟩]⟩] ∧
      out.api_key.length = 20 ∧
      (∀ c ∈ out.api_key.data, c ∈ keyAlphabet) ∧
      out.user = userDocJ ⟨"a", 1, "Ann", "Acme", "active"⟩ ∧
      out.message = "User created" :=
  claim_C2 emptySt ⟨1, "Ann", "Acme", "active"⟩ (fun _ => 0) "a" "b" (by decide)

/-- C3: createUser fails with Conflict (400) exactly when a User with the
same id already exists; on that failure it performs no writes; creating a
user twice with the same id from the empty store fails the second time and
leaves exactly one User document and one ApiKeySet document. -/
theorem claim_C3 :
    (∀ (st : St) (u : UserIn) (rand : Nat → Nat) (uo ko : String),
      ((create_user st u rand uo ko).2 = .error (.conflict "User ID already exists") ↔
        ∃ d ∈ st.users, d.id = u.id) ∧
      ((create_user st u rand uo ko).2 = .error (.conflict "User ID already exists") →
        (create_user st u rand uo ko).1 = st)) ∧
    (∀ (u : UserIn) (r1 r2 : Nat → Nat) (uo1 ko1 uo2 ko2 : String),
      (create_user (create_user emptySt u r1 uo1 ko1).1 u r2 uo2 ko2).2 =
        .error (.conflict "User ID already exists") ∧
      (create_user (create_user emptySt u r1 uo1 ko1).1 u r2 uo2 ko2).1 =
        (create_user emptySt u r1 uo1 ko1).1 ∧
      (create_user emptySt u r1 uo1 ko1).1.users.length = 1 ∧
      (create_user emptySt u r1 uo1 ko1).1.keys.length = 1) := by
  have hmain : ∀ (st : St) (u : UserIn) (rand : Nat → Nat) (uo ko : String),
      ((create_user st u rand uo ko).2 = .error (.conflict "User ID already exists") ↔
        ∃ d ∈ st.users, d.id = u.id) ∧
      ((create_user st u rand uo ko).2 = .error (.conflict "User ID already exists") →
        (create_user st u rand uo ko).1 = st) := by
    intro st u rand uo ko
    by_cases hany : st.users.any (fun d => d.id == u.id) = true
    · rw [create_user_conflict st u rand uo ko hany]
      obtain ⟨d, hd, hbeq⟩ := List.any_eq_true.mp hany
      exact ⟨⟨fun _ => ⟨d, hd, by simpa using hbeq⟩, fun _ => rfl⟩, fun _ => rfl⟩
    · have hany' : st.users.any (fun d => d.id == u.id) = false :=
        Bool.eq_false_iff.mpr hany
      rw [create_user_success st u rand uo ko hany']
      constructor
      · constructor
        · intro hcontra
          exact absurd hcontra (by simp)
        · intro ⟨d, hd, hid⟩
          exfalso
          rw [List.any_eq_false] at hany'
          exact hany' d hd (by simp [hid])
      · intro hcontra
        exact absurd hcontra (by simp)
  refine ⟨hmain, ?_⟩
  intro u r1 r2 uo1 ko1 uo2 ko2
  have h1 : (emptySt.users.any (fun d => d.id == u.id)) = false := rfl
  rw [create_user_success emptySt u r1 uo1 ko1 h1]
  have h2 : (([] ++ [(⟨uo1, u.id, u.name, u.company, u.status⟩ : MUser)]).any
      (fun d => d.id == u.id)) = true := by
    simp
  rw [create_user_conflict _ u r2 uo2 ko2 h2]
  exact ⟨rfl, rfl, rfl, rfl⟩

/-- Witness for C3 at a concrete input (the conflict branch's no-write
conclusion applied with its hypothesis discharged). -/
theorem claim_C3_witness :
    (create_user ⟨[⟨"a", 1, "Ann", "Acme", "active"⟩], [], [], []⟩
      ⟨1, "Bo", "Init", "active"⟩ (fun _ => 0) "c" "d").1 =
      ⟨[⟨"a", 1, "Ann", "Acme", "active"⟩], [], [], []⟩ :=
  (claim_C3.1 ⟨[⟨"a", 1, "Ann", "Acme", "active"⟩], [], [], []⟩
    ⟨1, "Bo", "Init", "active"⟩ (fun _ => 0) "c" "d").2 rfl

/-- C8 (corrected): in the scenario the cached user document returned by
GET /users/1 additionally carries the "_id" field with the storage id; the
claim's document {id, name, company, status} with no additional fields is
not what the code returns. -/
theorem claim_C8_counterexample :
    get_user (create_user emptySt ⟨1, "Ann", "Acme", "active"⟩ (fun _ => 0) "aaa" "bbb").1 1 =
      .ok (.obj [("_id", .str "aaa"), ("company", .str "Acme"), ("id", .int 1),
        ("name", .str "Ann"), ("status", .str "active")]) ∧
    ([("_id", JVal.str "aaa"), ("company", JVal.str "Acme"), ("id", JVal.int 1),
      ("name", JVal.str "Ann"), ("status", JVal.str "active")].map Prod.fst =
        ["_id", "company", "id", "name", "status"]) ∧
    ("_id" ∉ (["id", "name", "company", "status"] : List String)) := by
  refine ⟨?_, rfl, by decide⟩
  rfl

/-- C8 (amended): creating user {id 1, name Ann, company Acme} returns a
20-character plaintext key, and GET /users/1 then returns exactly the
document {_id: storageId, id: 1, name: Ann, company: Acme, status: active} —
the storage id field is part of the cached document. -/
theorem claim_C8 (rand : Nat → Nat) (uo ko : String) :
    ∃ (st1 : St) (out : CreateUserOut),
      create_user emptySt ⟨1, "Ann", "Acme", "active"⟩ rand uo ko = (st1, .ok out) ∧
      out.api_key.length = 20 ∧
      get_user st1 1 = .ok (.obj [("_id", .str uo), ("company", .str "Acme"),
        ("id", .int 1), ("name", .str "Ann"), ("status", .str "active")]) := by
  rw [create_user_success emptySt ⟨1, "Ann", "Acme", "active"⟩ rand uo ko rfl]
  refine ⟨_, _, rfl, generate_api_key_length rand 20, ?_⟩
  have h0 : get_user
      (⟨[⟨uo, 1, "Ann", "Acme", "active"⟩],
        [⟨ko, uo, [⟨generate_api_key rand 20, "valid"⟩]⟩],
        [serStr (userDocJ ⟨uo, 1, "Ann", "Acme", "active"⟩)],
        [serStr (apiDocJ uo [⟨generate_api_key rand 20, "valid"⟩])]⟩ : St) 1 =
      (match scanCache (fun l => entryIdIsInt l 1)
          [serStr (userDocJ ⟨uo, 1, "Ann", "Acme", "active"⟩)] with
      | none => .error .serverError
      | some none => .error (.notFound "User not found in Redis")
      | some (some (_, l)) => .ok (.obj l)) := rfl
  have h1 : scanCache (fun l => entryIdIsInt l 1)
      [serStr (userDocJ ⟨uo, 1, "Ann", "Acme", "active"⟩)] =
      (match decodeEntryObj (serStr (userDocJ ⟨uo, 1, "Ann", "Acme", "active"⟩)) with
      | none => none
      | some l => if entryIdIsInt l 1 then
          some (some (serStr (userDocJ ⟨uo, 1, "Ann", "Acme", "active"⟩), l))
        else scanCache (fun l => entryIdIsInt l 1) []) := rfl
  show get_user
      (⟨[⟨uo, 1, "Ann", "Acme", "active"⟩],
        [⟨ko, uo, [⟨generate_api_key rand 20, "valid"⟩]⟩],
        [serStr (userDocJ ⟨uo, 1, "Ann", "Acme", "active"⟩)],
        [serStr (apiDocJ uo [⟨generate_api_key rand 20, "valid"⟩])]⟩ : St) 1 =
    .ok (.obj [("_id", .str uo), ("company", .str "Acme"),
      ("id", .int 1), ("name", .str "Ann"), ("status", .str "active")])
  rw [h0, h1, decode_userDocJ ⟨uo, 1, "Ann", "Acme", "active"⟩]
  rfl

/-- Does an entry decode to a dict whose "id" is this integer (users cache). -/
def entryIdMatchesInt (s : String) (uid : Int) : Bool :=
  match decodeEntryObj s with
  | some l => entryIdIsInt l uid
  | none => false

/-- The first users-cache entry decoding to this integer id. -/
def firstMatchInt (entries : List String) (uid : Int) : Option String :=
  entries.find? (fun e => entryIdMatchesInt e uid)

/-- C5: the cache reads (list_api_keys and get_user) scan the named Redis
list linearly from the head (the first-match semantics of find?) and return
the decoded form of the first entry whose "id" field equals the requested
value; when no entry matches they fail with NotFound (404). -/
theorem claim_C5 (st : St) (mid : String) (uid : Int)
    (h1 : cacheWF st.apiKeysList = true) (h2 : cacheWF st.usersList = true) :
    ((firstMatch st.apiKeysList mid = none →
        list_api_keys st mid = .error (.notFound "API keys not found in Redis")) ∧
     (∀ e l, firstMatch st.apiKeysList mid = some e → decodeEntryObj e = some l →
        list_api_keys st mid = .ok (.obj l))) ∧
    ((firstMatchInt st.usersList uid = none →
        get_user st uid = .error (.notFound "User not found in Redis")) ∧
     (∀ e l, firstMatchInt st.usersList uid = some e → decodeEntryObj e = some l →
        get_user st uid = .ok (.obj l))) := by
  have h0a : list_api_keys st mid =
      (match scanCache (fun l => entryIdIsStr l mid) st.apiKeysList with
      | none => .error .serverError
      | some none => .error (.notFound "API keys not found in Redis")
      | some (some (_, l)) => .ok (.obj l)) := rfl
  have h0u : get_user st uid =
      (match scanCache (fun l => entryIdIsInt l uid) st.usersList with
      | none => .error .serverError
      | some none => .error (.notFound "User not found in Redis")
      | some (some (_, l)) => .ok (.obj l)) := rfl
  constructor
  · constructor
    · intro hfm
      have hfm' : st.apiKeysList.find?
          (entryMatchesP (fun l => entryIdIsStr l mid)) = none := hfm
      rw [h0a, scanCache_of_wf _ _ h1, hfm']
      rfl
    · intro e l hfm hdec
      have hfm' : st.apiKeysList.find?
          (entryMatchesP (fun l => entryIdIsStr l mid)) = some e := hfm
      rw [h0a, scanCache_of_wf _ _ h1, hfm']
      simp only [Option.some_bind, hdec]
      rfl
  · constructor
    · intro hfm
      have hfm' : st.usersList.find?
          (entryMatchesP (fun l => entryIdIsInt l uid)) = none := hfm
      rw [h0u, scanCache_of_wf _ _ h2, hfm']
      rfl
    · intro e l hfm hdec
      have hfm' : st.usersList.find?
          (entryMatchesP (fun l => entryIdIsInt l uid)) = some e := hfm
      rw [h0u, scanCache_of_wf _ _ h2, hfm']
      simp only [Option.some_bind, hdec]
      rfl

/-- Witness for C5 at a concrete state: one api-keys entry is found by its
storage id, and a get_user scan with no matching entry yields NotFound. -/
theorem claim_C5_witness :
    list_api_keys ⟨[], [], [serStr (userDocJ ⟨"a", 1, "Ann", "Acme", "active"⟩)],
        [serStr (apiDocJ "a" [⟨"k1", "valid"⟩])]⟩ "a" =
      .ok (.obj [("id", .str "a"), ("keys", keysJ [⟨"k1", "valid"⟩])]) ∧
    get_user ⟨[], [], [serStr (userDocJ ⟨"a", 1, "Ann", "Acme", "active"⟩)],
        [serStr (apiDocJ "a" [⟨"k1", "valid"⟩])]⟩ 5 =
      .error (.notFound "User not found in Redis") :=
  ⟨(claim_C5 ⟨[], [], [serStr (userDocJ ⟨"a", 1, "Ann", "Acme", "active"⟩)],
      [serStr (apiDocJ "a" [⟨"k1", "valid"⟩])]⟩ "a" 5 (by decide) (by decide)).1.2
      (serStr (apiDocJ "a" [⟨"k1", "valid"⟩]))
      [("id", .str "a"), ("keys", keysJ [⟨"k1", "valid"⟩])] rfl rfl,
   (claim_C5 ⟨[], [], [serStr (userDocJ ⟨"a", 1, "Ann", "Acme", "active"⟩)],
      [serStr (apiDocJ "a" [⟨"k1", "valid"⟩])]⟩ "a" 5 (by decide) (by decide)).2.1
      rfl⟩

/-- An api-keys cache entry for storage id "a" with an empty key list; two
exact copies of this string in the list exhibit the LREM count-0 behavior. -/
def dupEntry : String := serStr (apiDocJ "a" [])

/-- The refreshed serialization pushed after a mutation for storage id "a". -/
def newEntry : String := serStr (apiDocJ "a" [⟨"k", "valid"⟩])

/-- C4 (counterexample): with two exact copies of the matching entry in the
cache list, the update step removes BOTH (LREM with count 0), not at most the
single first matching entry: erasing one copy would leave [dupEntry,
newEntry], but the code yields [newEntry]. -/
theorem claim_C4_counterexample :
    cacheStep [dupEntry, dupEntry] "a" newEntry = some [newEntry] ∧
    List.eraseIdx [dupEntry, dupEntry] 0 ++ [newEntry] = [dupEntry, newEntry] ∧
    List.eraseIdx [dupEntry, dupEntry] 1 ++ [newEntry] = [dupEntry, newEntry] ∧
    ([newEntry] : List String) ≠ [dupEntry, newEntry] := by
  refine ⟨rfl, rfl, rfl, ?_⟩
  decide

/-- C4 (amended): the cache update performed after every ApiKeySet mutation
scans the list once from the head; if no entry decodes to the storage id it
appends the new serialization; otherwise it removes EVERY exact string copy
of the first entry whose decoded id matches (Redis LREM with count 0) — one
copy in the usual duplicate-free case — and then appends the new
serialization regardless. -/
theorem claim_C4 (entries : List String) (mid t : String) (hwf : cacheWF entries = true) :
    (firstMatch entries mid = none → cacheStep entries mid t = some (entries ++ [t])) ∧
    (∀ e, firstMatch entries mid = some e →
      e ∈ entries ∧ entryIdMatches e mid = true ∧
      cacheStep entries mid t = some (lremAll entries e ++ [t]) ∧
      lremAll entries e = entries.filter (fun x => x ≠ e) ∧
      (lremAll entries e).count e = 0) := by
  constructor
  · exact fun hfm => cacheStep_none entries mid t hwf hfm
  · intro e hfm
    obtain ⟨hmem, hmatch⟩ := firstMatch_some_match hfm
    refine ⟨hmem, hmatch, cacheStep_some entries mid t e hwf hfm, rfl, ?_⟩
    rw [List.count_eq_zero]
    intro hcontra
    have := (List.mem_filter.mp hcontra).2
    simp at this

/-- Witness for C4 at a concrete input (one matching entry, removed and
replaced). -/
theorem claim_C4_witness :
    (firstMatch [dupEntry] "a" = none →
      cacheStep [dupEntry] "a" newEntry = some ([dupEntry] ++ [newEntry])) ∧
    (∀ e, firstMatch [dupEntry] "a" = some e →
      e ∈ [dupEntry] ∧ entryIdMatches e "a" = true ∧
      cacheStep [dupEntry] "a" newEntry = some (lremAll [dupEntry] e ++ [newEntry]) ∧
      lremAll [dupEntry] e = [dupEntry].filter (fun x => x ≠ e) ∧
      (lremAll [dupEntry] e).count e = 0) :=
  claim_C4 [dupEntry] "a" newEntry (by decide)

/-- The first-match existence behind a positive duplicate count. -/
theorem exists_firstMatch_of_count (entries : List String) (mid : String)
    (hc : 1 ≤ countMatching entries mid) : ∃ e, firstMatch entries mid = some e := by
  rw [← Option.isSome_iff_exists]
  rw [firstMatch, List.find?_isSome]
  rw [countMatching] at hc
  cases hfil : entries.filter (fun s => entryIdMatches s mid) with
  | nil => rw [hfil] at hc; simp at hc
  | cons x xs =>
    have hx : x ∈ entries.filter (fun s => entryIdMatches s mid) := by
      rw [hfil]; simp
    exact ⟨x, List.mem_of_mem_filter hx, (List.mem_filter.mp hx).2⟩

/-- Splitting the matching count by the copies of one matching entry. -/
theorem count_split (l : List String) (p : String → Bool) (e : String) (hpe : p e = true) :
    (l.filter p).length = ((l.filter (fun x => x ≠ e)).filter p).length + l.count e := by
  induction l with
  | nil => rfl
  | cons a l ih =>
    rw [List.filter_cons, List.filter_cons, List.count_cons]
    by_cases hae : a = e
    · subst hae
      have hd1 : ¬ (decide (a ≠ a) = true) := by simp
      have hd2 : (a == a) = true := by simp
      rw [if_pos hpe, if_neg hd1, if_pos hd2]
      simp only [List.length_cons]
      omega
    · have hd1 : decide (a ≠ e) = true := decide_eq_true hae
      have hd2 : ¬ ((a == e) = true) := by simp [hae]
      rw [if_pos hd1, List.filter_cons, if_neg hd2]
      by_cases hpa : p a = true
      · rw [if_pos hpa, if_pos hpa]
        simp only [List.length_cons]
        omega
      · rw [if_neg hpa, if_neg hpa]
        omega

/-- countMatching distributes over list append. -/
theorem countMatching_append (l1 l2 : List String) (mid : String) :
    countMatching (l1 ++ l2) mid = countMatching l1 mid + countMatching l2 mid := by
  simp [countMatching, List.filter_append]

/-- A single matching entry counts as one. -/
theorem countMatching_single (t mid : String) (h : entryIdMatches t mid = true) :
    countMatching [t] mid = 1 := by
  simp [countMatching, List.filter_cons, h]

/-- C10 (counterexample): with two duplicate matching entries (n = 2 ≥ 1) the
update step leaves only 1 matching entry, not n = 2: the LREM with count 0
removes both copies before the single append. -/
theorem claim_C10_counterexample :
    countMatching [dupEntry, dupEntry] "a" = 2 ∧
    cacheStep [dupEntry, dupEntry] "a" newEntry = some [newEntry] ∧
    countMatching [newEntry] "a" = 1 ∧ (1 : Nat) ≠ 2 :=
  ⟨rfl, rfl, rfl, by decide⟩

/-- C10 (amended): the update step appends one matching entry after removing
every exact copy of the first matching entry, so a list with 0 matching
entries maps to 1; a list with n ≥ 1 matching entries maps to
n + 1 - (number of exact copies of the first match), which is at most n —
duplicate matching entries that are exact string copies ARE collapsed, and
only distinct-string duplicates survive. -/
theorem claim_C10 (entries : List String) (mid t : String)
    (hwf : cacheWF entries = true) (hmt : entryIdMatches t mid = true) :
    ∃ r, cacheStep entries mid t = some r ∧
      (countMatching entries mid = 0 → countMatching r mid = 1) ∧
      (∀ e, firstMatch entries mid = some e →
        countMatching r mid + entries.count e = countMatching entries mid + 1 ∧
        1 ≤ entries.count e ∧
        countMatching r mid ≤ countMatching entries mid) ∧
      (1 ≤ countMatching entries mid → ∃ e, firstMatch entries mid = some e) := by
  cases hfm : firstMatch entries mid with
  | none =>
    refine ⟨entries ++ [t], cacheStep_none entries mid t hwf hfm, ?_, ?_, ?_⟩
    · intro h0
      rw [countMatching_append, countMatching_single t mid hmt, h0]
    · intro e he
      exact absurd he (by simp)
    · intro hc
      obtain ⟨e, he⟩ := exists_firstMatch_of_count entries mid hc
      rw [hfm] at he
      exact ⟨e, he⟩
  | some e =>
    have hstep := cacheStep_some entries mid t e hwf hfm
    obtain ⟨hmem, hmatch⟩ := firstMatch_some_match hfm
    have hcount : 0 < entries.count e := List.count_pos_iff_mem.mpr hmem
    have hsplit := count_split entries (fun x => entryIdMatches x mid) e hmatch
    have hr : countMatching (lremAll entries e ++ [t]) mid =
        countMatching (lremAll entries e) mid + 1 := by
      rw [countMatching_append, countMatching_single t mid hmt]
    have hl : countMatching (lremAll entries e) mid =
        ((entries.filter (fun x => x ≠ e)).filter (fun x => entryIdMatches x mid)).length :=
      rfl
    have he0 : countMatching entries mid =
        (entries.filter (fun x => entryIdMatches x mid)).length := rfl
    refine ⟨lremAll entries e ++ [t], hstep, ?_, ?_, fun _ => ⟨e, rfl⟩⟩
    · intro h0
      omega
    · intro e' he'
      injection he' with h
      subst h
      refine ⟨?_, hcount, ?_⟩ <;> rw [hr, hl] <;> omega

/-- Witness for C10 at a concrete input: one matching entry with one copy —
the count stays at 1 across the update. -/
theorem claim_C10_witness :
    ∃ r, cacheStep [dupEntry] "a" newEntry = some r ∧
      (countMatching [dupEntry] "a" = 0 → countMatching r "a" = 1) ∧
      (∀ e, firstMatch [dupEntry] "a" = some e →
        countMatching r "a" + [dupEntry].count e = countMatching [dupEntry] "a" + 1 ∧
        1 ≤ [dupEntry].count e ∧
        countMatching r "a" ≤ countMatching [dupEntry] "a") ∧
      (1 ≤ countMatching [dupEntry] "a" → ∃ e, firstMatch [dupEntry] "a" = some e) :=
  claim_C10 [dupEntry] "a" newEntry (by decide) (by decide)

/-- On a decodable cache list the update step always succeeds. -/
theorem cacheStep_isSome (entries : List String) (mid t : String)
    (hwf : cacheWF entries = true) : ∃ r, cacheStep entries mid t = some r := by
  cases hfm : firstMatch entries mid with
  | none => exact ⟨entries ++ [t], cacheStep_none entries mid t hwf hfm⟩
  | some e => exact ⟨lremAll entries e ++ [t], cacheStep_some entries mid t e hwf hfm⟩

theorem create_api_key_notFound (st : St) (mid : String) (rand : Nat → Nat) (fo : String)
    (hu : st.users.find? (fun d => d.oid == mid) = none) :
    create_api_key st mid rand fo = (st, .error (.notFound "User not found")) := by
  unfold create_api_key
  rw [hu]

theorem create_api_key_insert (st : St) (mid : String) (rand : Nat → Nat) (fo : String)
    (u : MUser) (r : List String)
    (hu : st.users.find? (fun d => d.oid == mid) = some u)
    (hk : st.keys.find? (fun d => d.id == mid) = none)
    (hr : cacheStep st.apiKeysList mid
        (serStr (keyDocJ ⟨fo, mid, [⟨generate_api_key rand 20, "valid"⟩]⟩)) = some r) :
    create_api_key st mid rand fo =
      (⟨st.users, st.keys ++ [⟨fo, mid, [⟨generate_api_key rand 20, "valid"⟩]⟩],
        st.usersList, r⟩, .ok (generate_api_key rand 20)) := by
  unfold create_api_key
  rw [hu]
  dsimp only
  rw [hk]
  dsimp only
  rw [hr]

theorem create_api_key_append (st : St) (mid : String) (rand : Nat → Nat) (fo : String)
    (u : MUser) (kd : MKeyDoc) (r : List String)
    (hu : st.users.find? (fun d => d.oid == mid) = some u)
    (hk : st.keys.find? (fun d => d.id == mid) = some kd)
    (hr : cacheStep st.apiKeysList mid
        (serStr (keyDocJ ⟨kd.oid, kd.id, kd.keys ++ [⟨generate_api_key rand 20, "valid"⟩]⟩)) =
      some r) :
    create_api_key st mid rand fo =
      (⟨st.users, updateFirstKeys st.keys mid (kd.keys ++ [⟨generate_api_key rand 20, "valid"⟩]),
        st.usersList, r⟩, .ok (generate_api_key rand 20)) := by
  unfold create_api_key
  rw [hu]
  dsimp only
  rw [hk]
  dsimp only
  rw [hr]

/-- C7: create_api_key fails with NotFound iff no User with that storage id
exists in the record store; otherwise it generates a new 20-character key
from the fixed alphabet, inserts a fresh single-key ApiKeySet when none
exists for the storage id, appends the key to the existing key sequence
(preserving all previously stored keys) when one does, refreshes the cache,
and returns the new plaintext key in both cases. -/
theorem claim_C7 (st : St) (mid : String) (rand : Nat → Nat) (fo : String)
    (hwf : cacheWF st.apiKeysList = true) :
    ((create_api_key st mid rand fo).2 = .error (.notFound "User not found") ↔
      st.users.find? (fun d => d.oid == mid) = none) ∧
    (st.users.find? (fun d => d.oid == mid) = none →
      create_api_key st mid rand fo = (st, .error (.notFound "User not found"))) ∧
    ((generate_api_key rand 20).length = 20 ∧
      ∀ c ∈ (generate_api_key rand 20).data, c ∈ keyAlphabet) ∧
    (∀ u, st.users.find? (fun d => d.oid == mid) = some u →
      (st.keys.find? (fun d => d.id == mid) = none →
        ∃ r, cacheStep st.apiKeysList mid
            (serStr (keyDocJ ⟨fo, mid, [⟨generate_api_key rand 20, "valid"⟩]⟩)) = some r ∧
          create_api_key st mid rand fo =
            (⟨st.users, st.keys ++ [⟨fo, mid, [⟨generate_api_key rand 20, "valid"⟩]⟩],
              st.usersList, r⟩, .ok (generate_api_key rand 20))) ∧
      (∀ kd, st.keys.find? (fun d => d.id == mid) = some kd →
        ∃ r, cacheStep st.apiKeysList mid
            (serStr (keyDocJ ⟨kd.oid, kd.id,
              kd.keys ++ [⟨generate_api_key rand 20, "valid"⟩]⟩)) = some r ∧
          create_api_key st mid rand fo =
            (⟨st.users,
              updateFirstKeys st.keys mid (kd.keys ++ [⟨generate_api_key rand 20, "valid"⟩]),
              st.usersList, r⟩, .ok (generate_api_key rand 20)))) := by
  have hiff : (create_api_key st mid rand fo).2 =
      .error (.notFound "User not found") ↔
      st.users.find? (fun d => d.oid == mid) = none := by
    constructor
    · intro hnf
      by_contra hns
      cases hu : st.users.find? (fun d => d.oid == mid) with
      | none => exact hns hu
      | some u =>
        cases hk : st.keys.find? (fun d => d.id == mid) with
        | none =>
          obtain ⟨r, hr⟩ := cacheStep_isSome st.apiKeysList mid
            (serStr (keyDocJ ⟨fo, mid, [⟨generate_api_key rand 20, "valid"⟩]⟩)) hwf
          rw [create_api_key_insert st mid rand fo u r hu hk hr] at hnf
          exact Except.noConfusion hnf
        | some kd =>
          obtain ⟨r, hr⟩ := cacheStep_isSome st.apiKeysList mid
            (serStr (keyDocJ ⟨kd.oid, kd.id,
              kd.keys ++ [⟨generate_api_key rand 20, "valid"⟩]⟩)) hwf
          rw [create_api_key_append st mid rand fo u kd r hu hk hr] at hnf
          exact Except.noConfusion hnf
    · intro hu
      rw [create_api_key_notFound st mid rand fo hu]
  refine ⟨hiff, fun hu => create_api_key_notFound st mid rand fo hu,
    ⟨generate_api_key_length rand 20, generate_api_key_chars rand 20⟩, ?_⟩
  intro u hu
  constructor
  · intro hk
    obtain ⟨r, hr⟩ := cacheStep_isSome st.apiKeysList mid
      (serStr (keyDocJ ⟨fo, mid, [⟨generate_api_key rand 20, "valid"⟩]⟩)) hwf
    exact ⟨r, hr, create_api_key_insert st mid rand fo u r hu hk hr⟩
  · intro kd hk
    obtain ⟨r, hr⟩ := cacheStep_isSome st.apiKeysList mid
      (serStr (keyDocJ ⟨kd.oid, kd.id,
        kd.keys ++ [⟨generate_api_key rand 20, "valid"⟩]⟩)) hwf
    exact ⟨r, hr, create_api_key_append st mid rand fo u kd r hu hk hr⟩

/-- Witness for C7 at a concrete state holding one user "a" and no key
documents: the insert branch applies and the plaintext key is returned. -/
theorem claim_C7_witness :
    ((create_api_key ⟨[⟨"a", 1, "Ann", "Acme", "active"⟩], [], [], []⟩ "a"
        (fun _ => 0) "b").2 = .error (.notFound "User not found") ↔
      List.find? (fun d => d.oid == "a") [(⟨"a", 1, "Ann", "Acme", "active"⟩ : MUser)] = none) ∧
    (List.find? (fun d => d.oid == "a") [(⟨"a", 1, "Ann", "Acme", "active"⟩ : MUser)] = none →
      create_api_key ⟨[⟨"a", 1, "Ann", "Acme", "active"⟩], [], [], []⟩ "a" (fun _ => 0) "b" =
        (⟨[⟨"a", 1, "Ann", "Acme", "active"⟩], [], [], []⟩,
         .error (.notFound "User not found"))) ∧
    ((generate_api_key (fun _ => 0) 20).length = 20 ∧
      ∀ c ∈ (generate_api_key (fun _ => 0) 20).data, c ∈ keyAlphabet) ∧
    (∀ u, List.find? (fun d => d.oid == "a")
        [(⟨"a", 1, "Ann", "Acme", "active"⟩ : MUser)] = some u →
      (List.find? (fun d => d.id == "a") ([] : List MKeyDoc) = none →
        ∃ r, cacheStep [] "a"
            (serStr (keyDocJ ⟨"b", "a", [⟨generate_api_key (fun _ => 0) 20, "valid"⟩]⟩)) =
          some r ∧
          create_api_key ⟨[⟨"a", 1, "Ann", "Acme", "active"⟩], [], [], []⟩ "a"
              (fun _ => 0) "b" =
            (⟨[⟨"a", 1, "Ann", "Acme", "active"⟩],
              [] ++ [⟨"b", "a", [⟨generate_api_key (fun _ => 0) 20, "valid"⟩]⟩],
              [], r⟩, .ok (generate_api_key (fun _ => 0) 20))) ∧
      (∀ kd, List.find? (fun d => d.id == "a") ([] : List MKeyDoc) = some kd →
        ∃ r, cacheStep [] "a"
            (serStr (keyDocJ ⟨kd.oid, kd.id,
              kd.keys ++ [⟨generate_api_key (fun _ => 0) 20, "valid"⟩]⟩)) = some r ∧
          create_api_key ⟨[⟨"a", 1, "Ann", "Acme", "active"⟩], [], [], []⟩ "a"
              (fun _ => 0) "b" =
            (⟨[⟨"a", 1, "Ann", "Acme", "active"⟩],
              updateFirstKeys [] "a" (kd.keys ++ [⟨generate_api_key (fun _ => 0) 20, "valid"⟩]),
              [], r⟩, .ok (generate_api_key (fun _ => 0) 20)))) :=
  claim_C7 ⟨[⟨"a", 1, "Ann", "Acme", "active"⟩], [], [], []⟩ "a" (fun _ => 0) "b" rfl

theorem remove_api_key_noDoc (st : St) (mid key : String)
    (hk : st.keys.find? (fun d => d.id == mid) = none) :
    remove_api_key st mid key = (st, .error (.notFound "API key document not found")) := by
  unfold remove_api_key
  rw [hk]

theorem remove_api_key_noKey (st : St) (mid key : String) (kd : MKeyDoc)
    (hk : st.keys.find? (fun d => d.id == mid) = some kd)
    (hlen : (kd.keys.filter (fun k => k.key != key)).length = kd.keys.length) :
    remove_api_key st mid key = (st, .error (.notFound "API key not found")) := by
  unfold remove_api_key
  rw [hk]
  dsimp only
  rw [if_pos hlen]

theorem remove_api_key_success (st : St) (mid key : String) (kd : MKeyDoc) (r : List String)
    (hk : st.keys.find? (fun d => d.id == mid) = some kd)
    (hlen : ¬ (kd.keys.filter (fun k => k.key != key)).length = kd.keys.length)
    (hr : cacheStep st.apiKeysList mid
        (serStr (apiDocJ mid (kd.keys.filter (fun k => k.key != key)))) = some r) :
    remove_api_key st mid key =
      (⟨st.users, updateFirstKeys st.keys mid (kd.keys.filter (fun k => k.key != key)),
        st.usersList, r⟩, .ok key) := by
  unfold remove_api_key
  rw [hk]
  dsimp only
  rw [if_neg hlen]
  rw [hr]

/-- The value filter removes nothing exactly when no entry carries the key. -/
theorem filter_length_eq_iff (l : List KeyEntry) (key : String) :
    (l.filter (fun k => k.key != key)).length = l.length ↔ ∀ e ∈ l, e.key ≠ key := by
  constructor
  · intro h
    have hsub : List.Sublist (l.filter (fun k => k.key != key)) l := List.filter_sublist l
    have heq : l.filter (fun k => k.key != key) = l := hsub.eq_of_length h
    intro e he hek
    have := List.filter_eq_self.mp heq e he
    simp [hek] at this
  · intro h
    have heq : l.filter (fun k => k.key != key) = l :=
      List.filter_eq_self.mpr (fun a ha => by simp [h a ha])
    rw [heq]

/-- C1: remove_api_key fails with NotFound iff no ApiKeySet document exists
for the storage id or no entry of its key list equals the key exactly; on
NotFound the state is unchanged; otherwise the matching entry is removed by
value filter, the reduced list is persisted, and the removed key is absent
from both the stored ApiKeySet and the cache entry returned by a subsequent
list_api_keys. -/
theorem claim_C1 (st : St) (mid key : String)
    (hwf : cacheWF st.apiKeysList = true)
    (hcnt : countMatching st.apiKeysList mid ≤ 1) :
    (((remove_api_key st mid key).2 = .error (.notFound "API key document not found") ∨
      (remove_api_key st mid key).2 = .error (.notFound "API key not found")) ↔
      (st.keys.find? (fun d => d.id == mid) = none ∨
        ∃ kd, st.keys.find? (fun d => d.id == mid) = some kd ∧ ∀ e ∈ kd.keys, e.key ≠ key)) ∧
    (∀ m, (remove_api_key st mid key).2 = .error (.notFound m) →
      remove_api_key st mid key = (st, .error (.notFound m))) ∧
    (∀ kd, st.keys.find? (fun d => d.id == mid) = some kd →
      (∃ e ∈ kd.keys, e.key = key) →
      ∃ r, cacheStep st.apiKeysList mid
          (serStr (apiDocJ mid (kd.keys.filter (fun k => k.key != key)))) = some r ∧
        remove_api_key st mid key =
          (⟨st.users, updateFirstKeys st.keys mid (kd.keys.filter (fun k => k.key != key)),
            st.usersList, r⟩, .ok key) ∧
        (updateFirstKeys st.keys mid (kd.keys.filter (fun k => k.key != key))).find?
            (fun d => d.id == mid) =
          some ⟨kd.oid, kd.id, kd.keys.filter (fun k => k.key != key)⟩ ∧
        (∀ e ∈ kd.keys.filter (fun k => k.key != key), e.key ≠ key) ∧
        list_api_keys
            ⟨st.users, updateFirstKeys st.keys mid (kd.keys.filter (fun k => k.key != key)),
              st.usersList, r⟩ mid =
          .ok (.obj [("id", .str mid),
            ("keys", keysJ (kd.keys.filter (fun k => k.key != key)))])) := by
  have hsucc : ∀ kd, st.keys.find? (fun d => d.id == mid) = some kd →
      (∃ e ∈ kd.keys, e.key = key) →
      ∃ r, cacheStep st.apiKeysList mid
          (serStr (apiDocJ mid (kd.keys.filter (fun k => k.key != key)))) = some r ∧
        remove_api_key st mid key =
          (⟨st.users, updateFirstKeys st.keys mid (kd.keys.filter (fun k => k.key != key)),
            st.usersList, r⟩, .ok key) ∧
        (updateFirstKeys st.keys mid (kd.keys.filter (fun k => k.key != key))).find?
            (fun d => d.id == mid) =
          some ⟨kd.oid, kd.id, kd.keys.filter (fun k => k.key != key)⟩ ∧
        (∀ e ∈ kd.keys.filter (fun k => k.key != key), e.key ≠ key) ∧
        list_api_keys
            ⟨st.users, updateFirstKeys st.keys mid (kd.keys.filter (fun k => k.key != key)),
              st.usersList, r⟩ mid =
          .ok (.obj [("id", .str mid),
            ("keys", keysJ (kd.keys.filter (fun k => k.key != key)))]) := by
    intro kd hk hex
    have hlen : ¬ (kd.keys.filter (fun k => k.key != key)).length = kd.keys.length := by
      intro heq
      obtain ⟨e, he, hek⟩ := hex
      exact (filter_length_eq_iff kd.keys key).mp heq e he hek
    cases hfm : firstMatch st.apiKeysList mid with
    | none =>
      have hr := cacheStep_none st.apiKeysList mid
        (serStr (apiDocJ mid (kd.keys.filter (fun k => k.key != key)))) hwf hfm
      refine ⟨st.apiKeysList ++
          [serStr (apiDocJ mid (kd.keys.filter (fun k => k.key != key)))],
        hr, remove_api_key_success st mid key kd _ hk hlen hr,
        find_updateFirstKeys st.keys mid _ kd hk, ?_, ?_⟩
      · intro e he hek
        have := (List.mem_filter.mp he).2
        simp [hek] at this
      · refine list_api_keys_last _ mid st.apiKeysList _
          [("id", .str mid), ("keys", keysJ (kd.keys.filter (fun k => k.key != key)))]
          rfl hwf (firstMatch_none_no_match hfm) (decode_apiDocJ mid _) ?_
        rw [entryIdIsStr_api]
        exact beq_string_refl mid
    | some e0 =>
      have hr := cacheStep_some st.apiKeysList mid
        (serStr (apiDocJ mid (kd.keys.filter (fun k => k.key != key)))) e0 hwf hfm
      refine ⟨lremAll st.apiKeysList e0 ++
          [serStr (apiDocJ mid (kd.keys.filter (fun k => k.key != key)))],
        hr, remove_api_key_success st mid key kd _ hk hlen hr,
        find_updateFirstKeys st.keys mid _ kd hk, ?_, ?_⟩
      · intro e he hek
        have := (List.mem_filter.mp he).2
        simp [hek] at this
      · refine list_api_keys_last _ mid (lremAll st.apiKeysList e0) _
          [("id", .str mid), ("keys", keysJ (kd.keys.filter (fun k => k.key != key)))]
          rfl (cacheWF_filter _ hwf) (no_match_after_lrem hcnt hfm)
          (decode_apiDocJ mid _) ?_
        rw [entryIdIsStr_api]
        exact beq_string_refl mid
  have hiff : ((remove_api_key st mid key).2 =
        .error (.notFound "API key document not found") ∨
      (remove_api_key st mid key).2 = .error (.notFound "API key not found")) ↔
      (st.keys.find? (fun d => d.id == mid) = none ∨
        ∃ kd, st.keys.find? (fun d => d.id == mid) = some kd ∧
          ∀ e ∈ kd.keys, e.key ≠ key) := by
    constructor
    · intro hor
      cases hk : st.keys.find? (fun d => d.id == mid) with
      | none => exact Or.inl rfl
      | some kd =>
        by_cases hall : ∀ e ∈ kd.keys, e.key ≠ key
        · exact Or.inr ⟨kd, rfl, hall⟩
        · exfalso
          push_neg at hall
          obtain ⟨e, he, hek⟩ := hall
          obtain ⟨r, hr, heq, _⟩ := hsucc kd hk ⟨e, he, hek⟩
          rw [heq] at hor
          cases hor with
          | inl h => exact Except.noConfusion h
          | inr h => exact Except.noConfusion h
    · intro hor
      cases hor with
      | inl h =>
        rw [remove_api_key_noDoc st mid key h]
        exact Or.inl rfl
      | inr h =>
        obtain ⟨kd, hk, hall⟩ := h
        rw [remove_api_key_noKey st mid key kd hk
          ((filter_length_eq_iff kd.keys key).mpr hall)]
        exact Or.inr rfl
  have hstate : ∀ m, (remove_api_key st mid key).2 = .error (.notFound m) →
      remove_api_key st mid key = (st, .error (.notFound m)) := by
    intro m hm
    cases hk : st.keys.find? (fun d => d.id == mid) with
    | none =>
      have h := remove_api_key_noDoc st mid key hk
      rw [h] at hm ⊢
      have hm' : ApiErr.notFound "API key document not found" = .notFound m := by
        injection hm
      injection hm' with h2
      subst h2
      rfl
    | some kd =>
      by_cases hall : (kd.keys.filter (fun k => k.key != key)).length = kd.keys.length
      · have h := remove_api_key_noKey st mid key kd hk hall
        rw [h] at hm ⊢
        have hm' : ApiErr.notFound "API key not found" = .notFound m := by
          injection hm
        injection hm' with h2
        subst h2
        rfl
      · exfalso
        have hex : ∃ e ∈ kd.keys, e.key = key := by
          by_contra hne
          push_neg at hne
          exact hall ((filter_length_eq_iff kd.keys key).mpr hne)
        obtain ⟨r, hr, heq, _⟩ := hsucc kd hk hex
        rw [heq] at hm
        exact Except.noConfusion hm
  exact ⟨hiff, hstate, hsucc⟩

/-- A concrete state with one key document for storage id "a" holding key
"k1", mirrored by one decodable cache entry. -/
def c1St : St :=
  ⟨[], [⟨"b", "a", [⟨"k1", "valid"⟩]⟩], [], [serStr (apiDocJ "a" [⟨"k1", "valid"⟩])]⟩

/-- Witness for C1 at the concrete state: removing key "k1" of storage id
"a" exercises every conjunct. -/
theorem claim_C1_witness :
    (((remove_api_key c1St "a" "k1").2 = .error (.notFound "API key document not found") ∨
      (remove_api_key c1St "a" "k1").2 = .error (.notFound "API key not found")) ↔
      (c1St.keys.find? (fun d => d.id == "a") = none ∨
        ∃ kd, c1St.keys.find? (fun d => d.id == "a") = some kd ∧
          ∀ e ∈ kd.keys, e.key ≠ "k1")) ∧
    (∀ m, (remove_api_key c1St "a" "k1").2 = .error (.notFound m) →
      remove_api_key c1St "a" "k1" = (c1St, .error (.notFound m))) ∧
    (∀ kd, c1St.keys.find? (fun d => d.id == "a") = some kd →
      (∃ e ∈ kd.keys, e.key = "k1") →
      ∃ r, cacheStep c1St.apiKeysList "a"
          (serStr (apiDocJ "a" (kd.keys.filter (fun k => k.key != "k1")))) = some r ∧
        remove_api_key c1St "a" "k1" =
          (⟨c1St.users, updateFirstKeys c1St.keys "a" (kd.keys.filter (fun k => k.key != "k1")),
            c1St.usersList, r⟩, .ok "k1") ∧
        (updateFirstKeys c1St.keys "a" (kd.keys.filter (fun k => k.key != "k1"))).find?
            (fun d => d.id == "a") =
          some ⟨kd.oid, kd.id, kd.keys.filter (fun k => k.key != "k1")⟩ ∧
        (∀ e ∈ kd.keys.filter (fun k => k.key != "k1"), e.key ≠ "k1") ∧
        list_api_keys
            ⟨c1St.users, updateFirstKeys c1St.keys "a" (kd.keys.filter (fun k => k.key != "k1")),
              c1St.usersList, r⟩ "a" =
          .ok (.obj [("id", .str "a"),
            ("keys", keysJ (kd.keys.filter (fun k => k.key != "k1")))])) :=
  claim_C1 c1St "a" "k1" (by decide) (by decide)

/-- A zero matching count means no entry of the list decodes to the id. -/
theorem no_match_of_count_zero {entries : List String} {mid : String}
    (h : countMatching entries mid = 0) :
    ∀ e ∈ entries, entryIdMatches e mid = false := by
  intro e he
  cases hm : entryIdMatches e mid with
  | false => rfl
  | true =>
    exfalso
    have hmem : e ∈ entries.filter (fun s => entryIdMatches s mid) :=
      List.mem_filter.mpr ⟨he, hm⟩
    rw [countMatching, List.length_eq_zero] at h
    rw [h] at hmem
    simp at hmem
/-- The key document found by storage id carries that id. -/
theorem find?_keydoc_id {keys : List MKeyDoc} {mid : String} {kd : MKeyDoc}
    (h : keys.find? (fun d => d.id == mid) = some kd) : kd.id = mid := by
  have hp := @List.find?_some MKeyDoc (fun d => d.id == mid) kd keys h
  exact eq_of_beq hp

/-- C9: the api-keys cache entry pushed by create_api_key is the
serialization of the stored document and carries an extra "_id" field
besides "id" and "keys", while the entries pushed by create_user and
remove_api_key carry only "id" and "keys"; consequently list_api_keys
returns a document with "_id" exactly when the key set's latest mutation was
a create_api_key. -/
theorem claim_C9 (st : St) (mid key : String) (rand : Nat → Nat) (fo : String)
    (u : UserIn) (uo ko : String)
    (hwf : cacheWF st.apiKeysList = true)
    (hcnt : countMatching st.apiKeysList mid ≤ 1)
    (hcnt0 : countMatching st.apiKeysList uo = 0) :
    (∀ k, (create_api_key st mid rand fo).2 = .ok k →
      ∃ d : MKeyDoc, d.id = mid ∧
        (create_api_key st mid rand fo).1.apiKeysList.getLast? =
          some (serStr (keyDocJ d)) ∧
        decodeEntryObj (serStr (keyDocJ d)) =
          some [("_id", .str d.oid), ("id", .str d.id), ("keys", keysJ d.keys)] ∧
        dictGet [("_id", .str d.oid), ("id", .str d.id), ("keys", keysJ d.keys)] "_id" =
          some (.str d.oid) ∧
        list_api_keys (create_api_key st mid rand fo).1 mid =
          .ok (.obj [("_id", .str d.oid), ("id", .str d.id), ("keys", keysJ d.keys)])) ∧
    (∀ out, (create_user st u rand uo ko).2 = .ok out →
      ∃ ks : List KeyEntry,
        (create_user st u rand uo ko).1.apiKeysList.getLast? =
          some (serStr (apiDocJ uo ks)) ∧
        decodeEntryObj (serStr (apiDocJ uo ks)) =
          some [("id", .str uo), ("keys", keysJ ks)] ∧
        dictGet [("id", .str uo), ("keys", keysJ ks)] "_id" = none ∧
        list_api_keys (create_user st u rand uo ko).1 uo =
          .ok (.obj [("id", .str uo), ("keys", keysJ ks)])) ∧
    (∀ k, (remove_api_key st mid key).2 = .ok k →
      ∃ ks : List KeyEntry,
        (remove_api_key st mid key).1.apiKeysList.getLast? =
          some (serStr (apiDocJ mid ks)) ∧
        decodeEntryObj (serStr (apiDocJ mid ks)) =
          some [("id", .str mid), ("keys", keysJ ks)] ∧
        dictGet [("id", .str mid), ("keys", keysJ ks)] "_id" = none ∧
        list_api_keys (remove_api_key st mid key).1 mid =
          .ok (.obj [("id", .str mid), ("keys", keysJ ks)])) := by
  refine ⟨?_, ?_, ?_⟩
  · intro k hok
    cases hu : st.users.find? (fun d => d.oid == mid) with
    | none =>
      rw [create_api_key_notFound st mid rand fo hu] at hok
      exact Except.noConfusion hok
    | some u0 =>
      cases hk : st.keys.find? (fun d => d.id == mid) with
      | none =>
        cases hfm : firstMatch st.apiKeysList mid with
        | none =>
          have hr := cacheStep_none st.apiKeysList mid
            (serStr (keyDocJ ⟨fo, mid, [⟨generate_api_key rand 20, "valid"⟩]⟩)) hwf hfm
          have heq := create_api_key_insert st mid rand fo u0 _ hu hk hr
          refine ⟨⟨fo, mid, [⟨generate_api_key rand 20, "valid"⟩]⟩, rfl, ?_, ?_, rfl, ?_⟩
          · rw [heq]
            exact List.getLast?_concat _
          · exact decode_keyDocJ _
          · rw [heq]
            refine list_api_keys_last _ mid st.apiKeysList _
              [("_id", .str fo), ("id", .str mid),
               ("keys", keysJ [⟨generate_api_key rand 20, "valid"⟩])]
              rfl hwf (firstMatch_none_no_match hfm) (decode_keyDocJ _) ?_
            rw [entryIdIsStr_keyDoc]
            exact beq_string_refl mid
        | some e0 =>
          have hr := cacheStep_some st.apiKeysList mid
            (serStr (keyDocJ ⟨fo, mid, [⟨generate_api_key rand 20, "valid"⟩]⟩)) e0 hwf hfm
          have heq := create_api_key_insert st mid rand fo u0 _ hu hk hr
          refine ⟨⟨fo, mid, [⟨generate_api_key rand 20, "valid"⟩]⟩, rfl, ?_, ?_, rfl, ?_⟩
          · rw [heq]
            exact List.getLast?_concat _
          · exact decode_keyDocJ _
          · rw [heq]
            refine list_api_keys_last _ mid (lremAll st.apiKeysList e0) _
              [("_id", .str fo), ("id", .str mid),
               ("keys", keysJ [⟨generate_api_key rand 20, "valid"⟩])]
              rfl (cacheWF_filter _ hwf) (no_match_after_lrem hcnt hfm)
              (decode_keyDocJ _) ?_
            rw [entryIdIsStr_keyDoc]
            exact beq_string_refl mid
      | some kd =>
        have hid : kd.id = mid := find?_keydoc_id hk
        cases hfm : firstMatch st.apiKeysList mid with
        | none =>
          have hr := cacheStep_none st.apiKeysList mid
            (serStr (keyDocJ ⟨kd.oid, kd.id,
              kd.keys ++ [⟨generate_api_key rand 20, "valid"⟩]⟩)) hwf hfm
          have heq := create_api_key_append st mid rand fo u0 kd _ hu hk hr
          refine ⟨⟨kd.oid, kd.id, kd.keys ++ [⟨generate_api_key rand 20, "valid"⟩]⟩,
            hid, ?_, ?_, rfl, ?_⟩
          · rw [heq]
            exact List.getLast?_concat _
          · exact decode_keyDocJ _
          · rw [heq]
            have hdec := decode_keyDocJ ⟨kd.oid, kd.id,
              kd.keys ++ [⟨generate_api_key rand 20, "valid"⟩]⟩
            generalize hts : serStr (keyDocJ ⟨kd.oid, kd.id,
              kd.keys ++ [⟨generate_api_key rand 20, "valid"⟩]⟩) = ts at hdec ⊢
            exact list_api_keys_last
              ⟨st.users,
                updateFirstKeys st.keys mid (kd.keys ++ [⟨generate_api_key rand 20, "valid"⟩]),
                st.usersList, st.apiKeysList ++ [ts]⟩ mid st.apiKeysList ts
              [("_id", .str kd.oid), ("id", .str kd.id),
               ("keys", keysJ (kd.keys ++ [⟨generate_api_key rand 20, "valid"⟩]))]
              rfl hwf (firstMatch_none_no_match hfm) hdec
              (by rw [entryIdIsStr_keyDoc, hid]; exact beq_string_refl mid)
        | some e0 =>
          have hr := cacheStep_some st.apiKeysList mid
            (serStr (keyDocJ ⟨kd.oid, kd.id,
              kd.keys ++ [⟨generate_api_key rand 20, "valid"⟩]⟩)) e0 hwf hfm
          have heq := create_api_key_append st mid rand fo u0 kd _ hu hk hr
          refine ⟨⟨kd.oid, kd.id, kd.keys ++ [⟨generate_api_key rand 20, "valid"⟩]⟩,
            hid, ?_, ?_, rfl, ?_⟩
          · rw [heq]
            exact List.getLast?_concat _
          · exact decode_keyDocJ _
          · rw [heq]
            have hdec := decode_keyDocJ ⟨kd.oid, kd.id,
              kd.keys ++ [⟨generate_api_key rand 20, "valid"⟩]⟩
            generalize hts : serStr (keyDocJ ⟨kd.oid, kd.id,
              kd.keys ++ [⟨generate_api_key rand 20, "valid"⟩]⟩) = ts at hdec ⊢
            exact list_api_keys_last
              ⟨st.users,
                updateFirstKeys st.keys mid (kd.keys ++ [⟨generate_api_key rand 20, "valid"⟩]),
                st.usersList, lremAll st.apiKeysList e0 ++ [ts]⟩ mid
              (lremAll st.apiKeysList e0) ts
              [("_id", .str kd.oid), ("id", .str kd.id),
               ("keys", keysJ (kd.keys ++ [⟨generate_api_key rand 20, "valid"⟩]))]
              rfl (cacheWF_filter _ hwf) (no_match_after_lrem hcnt hfm) hdec
              (by rw [entryIdIsStr_keyDoc, hid]; exact beq_string_refl mid)
  · intro out hok
    cases hc : st.users.any (fun d => d.id == u.id) with
    | true =>
      rw [create_user_conflict st u rand uo ko hc] at hok
      exact Except.noConfusion hok
    | false =>
      have heq := create_user_success st u rand uo ko hc
      refine ⟨[⟨generate_api_key rand 20, "valid"⟩], ?_, decode_apiDocJ _ _, rfl, ?_⟩
      · rw [heq]
        exact List.getLast?_concat _
      · rw [heq]
        refine list_api_keys_last _ uo
          (lremAll st.apiKeysList
            (serStr (apiDocJ uo [⟨generate_api_key rand 20, "valid"⟩]))) _
          [("id", .str uo), ("keys", keysJ [⟨generate_api_key rand 20, "valid"⟩])]
          rfl (cacheWF_filter _ hwf) ?_ (decode_apiDocJ _ _) ?_
        · intro e he
          exact no_match_of_count_zero hcnt0 e (List.mem_filter.mp he).1
        · rw [entryIdIsStr_api]
          exact beq_string_refl uo
  · intro k hok
    cases hk : st.keys.find? (fun d => d.id == mid) with
    | none =>
      rw [remove_api_key_noDoc st mid key hk] at hok
      exact Except.noConfusion hok
    | some kd =>
      by_cases hall : (kd.keys.filter (fun k2 => k2.key != key)).length = kd.keys.length
      · rw [remove_api_key_noKey st mid key kd hk hall] at hok
        exact Except.noConfusion hok
      · cases hfm : firstMatch st.apiKeysList mid with
        | none =>
          have hr := cacheStep_none st.apiKeysList mid
            (serStr (apiDocJ mid (kd.keys.filter (fun k2 => k2.key != key)))) hwf hfm
          have heq := remove_api_key_success st mid key kd _ hk hall hr
          refine ⟨kd.keys.filter (fun k2 => k2.key != key), ?_, decode_apiDocJ _ _, rfl, ?_⟩
          · rw [heq]
            exact List.getLast?_concat _
          · rw [heq]
            refine list_api_keys_last _ mid st.apiKeysList _
              [("id", .str mid), ("keys", keysJ (kd.keys.filter (fun k2 => k2.key != key)))]
              rfl hwf (firstMatch_none_no_match hfm) (decode_apiDocJ _ _) ?_
            rw [entryIdIsStr_api]
            exact beq_string_refl mid
        | some e0 =>
          have hr := cacheStep_some st.apiKeysList mid
            (serStr (apiDocJ mid (kd.keys.filter (fun k2 => k2.key != key)))) e0 hwf hfm
          have heq := remove_api_key_success st mid key kd _ hk hall hr
          refine ⟨kd.keys.filter (fun k2 => k2.key != key), ?_, decode_apiDocJ _ _, rfl, ?_⟩
          · rw [heq]
            exact List.getLast?_concat _
          · rw [heq]
            refine list_api_keys_last _ mid (lremAll st.apiKeysList e0) _
              [("id", .str mid), ("keys", keysJ (kd.keys.filter (fun k2 => k2.key != key)))]
              rfl (cacheWF_filter _ hwf) (no_match_after_lrem hcnt hfm)
              (decode_apiDocJ _ _) ?_
            rw [entryIdIsStr_api]
            exact beq_string_refl mid

/-- Witness for C9 at the concrete one-entry state: all three mutation shapes
are characterized there. -/
theorem claim_C9_witness :
    (∀ k, (create_api_key c1St "a" (fun _ => 0) "c").2 = .ok k →
      ∃ d : MKeyDoc, d.id = "a" ∧
        (create_api_key c1St "a" (fun _ => 0) "c").1.apiKeysList.getLast? =
          some (serStr (keyDocJ d)) ∧
        decodeEntryObj (serStr (keyDocJ d)) =
          some [("_id", .str d.oid), ("id", .str d.id), ("keys", keysJ d.keys)] ∧
        dictGet [("_id", .str d.oid), ("id", .str d.id), ("keys", keysJ d.keys)] "_id" =
          some (.str d.oid) ∧
        list_api_keys (create_api_key c1St "a" (fun _ => 0) "c").1 "a" =
          .ok (.obj [("_id", .str d.oid), ("id", .str d.id), ("keys", keysJ d.keys)])) ∧
    (∀ out, (create_user c1St ⟨2, "Bob", "BobCo", "active"⟩ (fun _ => 0) "u2" "u3").2 =
        .ok out →
      ∃ ks : List KeyEntry,
        (create_user c1St ⟨2, "Bob", "BobCo", "active"⟩
            (fun _ => 0) "u2" "u3").1.apiKeysList.getLast? =
          some (serStr (apiDocJ "u2" ks)) ∧
        decodeEntryObj (serStr (apiDocJ "u2" ks)) =
          some [("id", .str "u2"), ("keys", keysJ ks)] ∧
        dictGet [("id", .str "u2"), ("keys", keysJ ks)] "_id" = none ∧
        list_api_keys (create_user c1St ⟨2, "Bob", "BobCo", "active"⟩
            (fun _ => 0) "u2" "u3").1 "u2" =
          .ok (.obj [("id", .str "u2"), ("keys", keysJ ks)])) ∧
    (∀ k, (remove_api_key c1St "a" "k1").2 = .ok k →
      ∃ ks : List KeyEntry,
        (remove_api_key c1St "a" "k1").1.apiKeysList.getLast? =
          some (serStr (apiDocJ "a" ks)) ∧
        decodeEntryObj (serStr (apiDocJ "a" ks)) =
          some [("id", .str "a"), ("keys", keysJ ks)] ∧
        dictGet [("id", .str "a"), ("keys", keysJ ks)] "_id" = none ∧
        list_api_keys (remove_api_key c1St "a" "k1").1 "a" =
          .ok (.obj [("id", .str "a"), ("keys", keysJ ks)])) :=
  claim_C9 c1St "a" "k1" (fun _ => 0) "c" ⟨2, "Bob", "BobCo", "active"⟩ "u2" "u3"
    (by decide) (by decide) (by decide)

/-- C6: decoding the serialized cache form of any document yields its
canonical (key-sorted, order-independent) field set, the canonical form of
an object is a permutation of its fields, and two documents whose field sets
agree up to key order serialize to character-identical strings. -/
theorem claim_C6 :
    (∀ v : JVal, jdecode (serStr v) = some (canon v)) ∧
    (∀ l : List (String × JVal),
      canon (.obj l) = .obj (sortPairs (canonFields l)) ∧
      (sortPairs (canonFields l)).Perm (l.map (fun p => (p.1, canon p.2)))) ∧
    (∀ l1 l2 : List (String × JVal), l1.Perm l2 → (l1.map Prod.fst).Nodup →
      serStr (.obj l1) = serStr (.obj l2)) := by
  refine ⟨jdecode_serStr, ?_, ?_⟩
  · intro l
    refine ⟨canon_obj l, ?_⟩
    refine (sortPairs_perm (canonFields l)).trans ?_
    rw [canonFields_eq_map]
  · intro l1 l2 hp hnd
    have hm : (serFields l1).Perm (serFields l2) := by
      rw [serFields_eq_map, serFields_eq_map]
      exact hp.map _
    have hperm12 : (sortPairs (serFields l1)).Perm (sortPairs (serFields l2)) :=
      (sortPairs_perm _).trans (hm.trans (sortPairs_perm _).symm)
    have hcomp : (Prod.fst ∘ fun p : String × JVal => (p.1, (⟨serL p.2⟩ : String))) =
        Prod.fst := funext (fun p => rfl)
    have hkeys : ((sortPairs (serFields l1)).map Prod.fst).Perm (l1.map Prod.fst) := by
      refine ((sortPairs_perm (serFields l1)).map Prod.fst).trans ?_
      rw [serFields_eq_map, List.map_map, hcomp]
    have hnd1 : ((sortPairs (serFields l1)).map Prod.fst).Nodup :=
      hkeys.nodup_iff.mpr hnd
    have h1 : sortPairs (serFields l1) = sortPairs (serFields l2) :=
      sorted_perm_keys_nodup_eq _ _ hperm12 (sortPairs_sorted _) (sortPairs_sorted _) hnd1
    show (⟨serL (.obj l1)⟩ : String) = ⟨serL (.obj l2)⟩
    rw [serL_obj, serL_obj, h1]

/-- Witness for C6 on a two-field document given in both key orders. -/
theorem claim_C6_witness :
    jdecode (serStr (.obj [("b", .int 1), ("a", .int 2)])) =
      some (canon (.obj [("b", .int 1), ("a", .int 2)])) ∧
    canon (.obj [("b", .int 1), ("a", .int 2)]) =
      .obj (sortPairs (canonFields [("b", .int 1), ("a", .int 2)])) ∧
    serStr (.obj [("b", .int 1), ("a", .int 2)]) =
      serStr (.obj [("a", .int 2), ("b", .int 1)]) :=
  ⟨claim_C6.1 _, (claim_C6.2.1 _).1,
   claim_C6.2.2 [("b", .int 1), ("a", .int 2)] [("a", .int 2), ("b", .int 1)]
     (List.Perm.swap ("a", JVal.int 2) ("b", JVal.int 1) []) (by decide)⟩
